import Mathlib

/-!
# UDP socket wrapper (`udp_socket_linux.cc`): shallow embedding

The class `UdpSocketLinux` is embedded as a record of its data members.
Every member function that does not block is a pure function from the
record, its arguments and the answers of the platform (or of the socket
manager) to the new record, the list of outside calls it made, and its
return value.  The two blocking member functions, `CloseBlocking` and
`ReadyForDeletion`, are embedded statement by statement as a step function
over program counters named after the source lines, with the critical
section `_cs` and the two condition variables made explicit.
-/

namespace webrtc

/-! ## Constants of the headers -/

/-- Modelled from the spec: the "invalid sentinel" of the native handle, constant
`INVALID_SOCKET` of `udp_socket_wrapper.h` (not part of the sources at hand);
it is the value `socket(2)` returns when it fails. -/
def INVALID_SOCKET : Int := -1

/-- Modelled from the spec: the "error sentinel" of the send and receive
primitives, constant `SOCKET_ERROR` (not part of the sources at hand); it is the
value `sendto(2)` and `recvfrom(2)` return when they fail. -/
def SOCKET_ERROR : Int := -1

/-- Protocol level `IPPROTO_IP` of `<netinet/in.h>`. -/
def IPPROTO_IP : Int := 0

/-- Option name `IP_TOS` of `<netinet/in.h>` (Linux). -/
def IP_TOS : Int := 1

/-- Address value `SocketAddress`, kept abstract. -/
abbrev SocketAddress := Nat

/-- The two condition variables of the class. -/
inductive Cond where
  | readyForDeletionCond
  | closeBlockingCompletedCond
  deriving DecidableEq

/-- Calls that leave the class: platform primitives, the socket manager (with
the answer it gave), the registered callback, and the condition variables. -/
inductive Event where
  | socket (ipV6 : Bool)
  | ioctl (fd : Int)
  | fcntl (fd : Int)
  | setsockopt (fd level optname : Int) (optval : List Int) (optlen : Int)
  | bind (fd : Int) (name : SocketAddress)
  | sendto (fd : Int) (buf : List Int) (len : Int) (dst : SocketAddress)
  | recvfrom (fd : Int) (len : Nat)
  | incomingCb (cb obj : Nat) (buf : List Int) (len : Int) (src : SocketAddress)
  | AddSocket (answer : Bool)
  | RemoveSocket (answer : Bool)
  | close (fd : Int)
  | SleepCS (c : Cond)
  | Wake (c : Cond)
  deriving DecidableEq

/-! ## Data members -/

/-- Data members of `UdpSocketLinux` (the manager pointer `_mgr`, the
critical section and the condition variables are part of the system state
below). A null `_incomingCb` is `none`; `_obj` is an untested pointer. -/
structure UdpSocketLinux where
  socket : Int
  wantsIncoming : Bool
  error : Int
  id : Int
  obj : Nat
  incomingCb : Option Nat
  readyForDeletion : Bool
  closeBlockingActive : Bool
  closeBlockingCompleted : Bool
  deriving DecidableEq

/-- What a member function leaves behind: the object, the outside calls it
made in order, and the value it returned. -/
structure Outcome (α : Type) where
  self : UdpSocketLinux
  calls : List Event
  ret : α
  deriving DecidableEq

/-! ## Platform answers -/

/-- Answer of `socket(2)`: a non-negative descriptor, or failure (`-1`). -/
inductive SocketResult where
  | fd (n : Nat)
  | failed
  deriving DecidableEq

/-- The integer `socket(2)` hands back. -/
def SocketResult.toInt : SocketResult → Int
  | .fd n => (n : Int)
  | .failed => -1

/-- Answer of a platform call that reports a status and sets `errno`. -/
structure SysResult where
  ret : Int
  errno : Int
  deriving DecidableEq

/-- What the kernel holds for one `recvfrom(2)`: nothing readable (the call
fails), or one datagram with its source address. -/
inductive Incoming where
  | fail
  | datagram (payload : List Int) (src : SocketAddress)
  deriving DecidableEq

/-- Model of `recvfrom(fd, buf, len, 0, from, fromlen)` on a datagram socket:
it fails with `-1`, or copies at most `len` bytes of the datagram, drops the
rest, and returns the number of bytes copied. The source address buffer was
zeroed by the caller and stays so on failure. -/
def recvfrom (inc : Incoming) (len : Nat) : Int × List Int × SocketAddress :=
  match inc with
  | .fail => (-1, [], 0)
  | .datagram payload src => (((payload.take len).length : Nat), payload.take len, src)

/-! ## Member functions that do not block -/

namespace UdpSocketLinux

/-- Constructor `UdpSocketLinux::UdpSocketLinux(id, mgr, ipV6Enable)`. -/
def construct (id : Int) (ipV6Enable : Bool) (r : SocketResult) :
    Outcome Unit :=
  let fd := r.toInt
  { self :=
      { socket := fd
        wantsIncoming := false
        error := 0
        id := id
        obj := 0
        incomingCb := none
        readyForDeletion := false
        closeBlockingActive := false
        closeBlockingCompleted := false }
    calls := [Event.socket ipV6Enable, Event.ioctl fd, Event.fcntl fd]
    ret := () }

/-- Member `ChangeUniqueId(id)`. -/
def ChangeUniqueId (s : UdpSocketLinux) (id : Int) : Outcome Int :=
  { self := { s with id := id }, calls := [], ret := 0 }

/-- Member `SetCallback(obj, cb)`; `added` is the answer of
`_mgr->AddSocket(this)`. -/
def SetCallback (s : UdpSocketLinux) (obj : Nat) (cb : Option Nat)
    (added : Bool) : Outcome Bool :=
  let s1 := { s with obj := obj }
  let s2 := { s1 with incomingCb := cb }
  if added then
    { self := s2, calls := [Event.AddSocket added], ret := true }
  else
    { self := s2, calls := [Event.AddSocket added], ret := false }

/-- Member `SetSockopt(level, optname, optval, optlen)`; `r` is the answer of
`setsockopt(2)`. -/
def SetSockopt (s : UdpSocketLinux) (level optname : Int) (optval : List Int)
    (optlen : Int) (r : SysResult) : Outcome Bool :=
  let call := Event.setsockopt s.socket level optname optval optlen
  if 0 = r.ret then
    { self := s, calls := [call], ret := true }
  else
    { self := { s with error := r.errno }, calls := [call], ret := false }

/-- The value of a C++ `bool` in the integer comparison `b != 0`. -/
def boolToInt (b : Bool) : Int := if b then 1 else 0

/-- The four bytes of a 32-bit `serviceType` as `(WebRtc_Word8*)&serviceType`
reads them on a little-endian machine. -/
def word32Bytes (v : Int) : List Int :=
  let u := v % 2 ^ 32
  [u % 256, u / 256 % 256, u / 65536 % 256, u / 16777216 % 256]

/-- Member `SetTOS(serviceType)`; `r` is the answer of `setsockopt(2)`. -/
def SetTOS (s : UdpSocketLinux) (serviceType : Int) (r : SysResult) :
    Outcome Int :=
  let o := SetSockopt s IPPROTO_IP IP_TOS (word32Bytes serviceType) 4 r
  if boolToInt o.ret ≠ 0 then
    { self := o.self, calls := o.calls, ret := -1 }
  else
    { self := o.self, calls := o.calls, ret := 0 }

/-- Member `Bind(name)`; `r` is the answer of `bind(2)`. -/
def Bind (s : UdpSocketLinux) (name : SocketAddress) (r : SysResult) :
    Outcome Bool :=
  let call := Event.bind s.socket name
  if 0 = r.ret then
    { self := s, calls := [call], ret := true }
  else
    { self := { s with error := r.errno }, calls := [call], ret := false }

/-- Member `SendTo(buf, len, to)` (the destination is `dst` here); `r` is the answer of `sendto(2)`. -/
def SendTo (s : UdpSocketLinux) (buf : List Int) (len : Int)
    (dst : SocketAddress) (r : SysResult) : Outcome Int :=
  let call := Event.sendto s.socket buf len dst
  let retVal := r.ret
  if retVal = SOCKET_ERROR then
    { self := { s with error := r.errno }, calls := [call], ret := retVal }
  else
    { self := s, calls := [call], ret := retVal }

/-- Member `ValidHandle()`. -/
def ValidHandle (s : UdpSocketLinux) : Bool :=
  s.socket != INVALID_SOCKET

/-- Member `HasIncoming()`; `inc` is what the kernel holds for the one
`recvfrom(2)` the function issues on its 2048-byte buffer. -/
def HasIncoming (s : UdpSocketLinux) (inc : Incoming) : Outcome Unit :=
  let call := Event.recvfrom s.socket 2048
  let (retval, buf, src) := recvfrom inc 2048
  if retval = 0 then
    { self := s, calls := [call], ret := () }
  else if retval = SOCKET_ERROR then
    { self := s, calls := [call], ret := () }
  else
    match s.wantsIncoming, s.incomingCb with
    | true, some cb =>
        { self := s, calls := [call, Event.incomingCb cb s.obj buf retval src], ret := () }
    | _, _ => { self := s, calls := [call], ret := () }

/-- Member `CleanUp()`; `removed` is the answer of `_mgr->RemoveSocket(this)`,
which the function does not look at. -/
def CleanUp (s : UdpSocketLinux) (removed : Bool) : Outcome Bool :=
  let s1 := { s with wantsIncoming := false }
  if s1.socket = INVALID_SOCKET then
    { self := s1, calls := [], ret := false }
  else
    { self := s1, calls := [Event.RemoveSocket removed], ret := true }

end UdpSocketLinux

/-! ## The blocking member functions as a step function -/

/-- A call of one of the member functions that do not block, with the
answers the platform or the manager will give. -/
inductive Op where
  | ChangeUniqueId (id : Int)
  | SetCallback (obj : Nat) (cb : Option Nat) (added : Bool)
  | SetSockopt (level optname : Int) (optval : List Int) (optlen : Int) (r : SysResult)
  | SetTOS (serviceType : Int) (r : SysResult)
  | Bind (name : SocketAddress) (r : SysResult)
  | SendTo (buf : List Int) (len : Int) (dst : SocketAddress) (r : SysResult)
  | HasIncoming (inc : Incoming)
  deriving DecidableEq

/-- Effect of such a call on the object, and the outside calls it makes. -/
def Op.run (s : UdpSocketLinux) : Op → UdpSocketLinux × List Event
  | .ChangeUniqueId id =>
      ((UdpSocketLinux.ChangeUniqueId s id).self, (UdpSocketLinux.ChangeUniqueId s id).calls)
  | .SetCallback obj cb added =>
      ((UdpSocketLinux.SetCallback s obj cb added).self,
       (UdpSocketLinux.SetCallback s obj cb added).calls)
  | .SetSockopt level optname optval optlen r =>
      ((UdpSocketLinux.SetSockopt s level optname optval optlen r).self,
       (UdpSocketLinux.SetSockopt s level optname optval optlen r).calls)
  | .SetTOS serviceType r =>
      ((UdpSocketLinux.SetTOS s serviceType r).self, (UdpSocketLinux.SetTOS s serviceType r).calls)
  | .Bind name r => ((UdpSocketLinux.Bind s name r).self, (UdpSocketLinux.Bind s name r).calls)
  | .SendTo buf len dst r =>
      ((UdpSocketLinux.SendTo s buf len dst r).self, (UdpSocketLinux.SendTo s buf len dst r).calls)
  | .HasIncoming inc =>
      ((UdpSocketLinux.HasIncoming s inc).self, (UdpSocketLinux.HasIncoming s inc).calls)

/-- Program counter of one thread. `cNNN` is line NNN of `CloseBlocking`,
`rNNN` line NNN of `ReadyForDeletion`; `c225s`/`r246s` is a thread asleep
inside `SleepCS` (the critical section released), `c225w`/`r246w` the same
thread woken and waiting to take the critical section again. `c220`, `c230`,
`r238` and `r249` are the four `return`s. `call op` is a thread about to call
a member function that does not block, `done` the same thread afterwards. -/
inductive Pc where
  | c214 | c215 | c216 | c218 | c219 | c220
  | c223 | c225 | c225s | c225w | c227 | c228 | c229 | c230
  | r234 | r235 | r237 | r238
  | r240 | r241 | r242 | r243 | r244 | r246 | r246s | r246w | r248 | r249
  | call (op : Op)
  | done
  deriving DecidableEq

/-- The condition variable a thread is asleep on, if any. -/
def Pc.sleepsOn : Pc → Option Cond
  | .c225s => some .readyForDeletionCond
  | .r246s => some .closeBlockingCompletedCond
  | _ => none

/-- A sleeping thread once woken; every other thread as it is. -/
def Pc.woken : Pc → Pc
  | .c225s => .c225w
  | .r246s => .r246w
  | p => p

/-- Wake the first thread asleep on `c`, if there is one. -/
def wakeFirst (c : Cond) : List Pc → List Pc
  | [] => []
  | p :: ps => if p.sleepsOn = some c then p.woken :: ps else p :: wakeFirst c ps

/-- Modelled from the spec: "signal the condition", `Wake()` of
`ConditionVariableWrapper` (not part of the sources at hand). One thread
asleep on `c` is woken if there is any: thread `pick` if it is asleep on `c`,
else the first one that is. With nobody asleep the signal is lost. -/
def Wake (c : Cond) (pick : Nat) (ts : List Pc) : List Pc :=
  match ts[pick]? with
  | some p => if p.sleepsOn = some c then ts.set pick p.woken else wakeFirst c ts
  | none => wakeFirst c ts

/-- One scheduling decision: the thread that moves, the sleeper a `Wake` of
this step picks, the answer of the manager if this step calls
`RemoveSocket`, and whether a sleeping thread wakes without a signal. -/
structure Choice where
  tid : Nat
  pick : Nat
  removed : Bool
  spurious : Bool
  deriving DecidableEq

/-- The object shared by the threads: data members, holder of the critical
section `_cs`, program counter of every thread, and the outside calls made so
far, each with the thread that made it. -/
structure Sys where
  sock : UdpSocketLinux
  cs : Option Nat
  threads : List Pc
  trace : List (Nat × Event)
  deriving DecidableEq

/-- All threads at the given program counters, nobody in the critical
section, nothing called yet. -/
def Sys.init (sock : UdpSocketLinux) (threads : List Pc) : Sys :=
  { sock := sock, cs := none, threads := threads, trace := [] }

/-- What one statement does: where the thread goes, the data members and the
holder of the critical section afterwards, the condition variable it signals,
and the outside calls it makes. -/
structure Effect where
  pc : Pc
  sock : UdpSocketLinux
  cs : Option Nat
  wake : Option Cond
  calls : List Event
  deriving DecidableEq

/-- One statement of thread `i` standing at `pc`; `none` when the thread cannot
move (it has returned, waits for the critical section, or sleeps). -/
def stmt (pc : Pc) (i : Nat) (sock : UdpSocketLinux) (cs : Option Nat) (ch : Choice) :
    Option Effect :=
  match pc with
  -- CloseBlocking
  | .c214 => -- _cs->Enter();
      if cs = none then some ⟨.c215, sock, some i, none, []⟩ else none
  | .c215 => -- _closeBlockingActive = true;
      some ⟨.c216, { sock with closeBlockingActive := true }, cs, none, []⟩
  | .c216 => -- if(!CleanUp())
      let o := UdpSocketLinux.CleanUp sock ch.removed
      if !o.ret then some ⟨.c218, o.self, cs, none, o.calls⟩
      else some ⟨.c223, o.self, cs, none, o.calls⟩
  | .c218 => -- _closeBlockingActive = false;
      some ⟨.c219, { sock with closeBlockingActive := false }, cs, none, []⟩
  | .c219 => -- _cs->Leave();
      some ⟨.c220, sock, none, none, []⟩
  | .c220 => -- return;
      none
  | .c223 => -- while(!_readyForDeletion)
      if !sock.readyForDeletion then some ⟨.c225, sock, cs, none, []⟩
      else some ⟨.c227, sock, cs, none, []⟩
  | .c225 => -- _readyForDeletionCond->SleepCS(*_cs); releases _cs and sleeps
      some ⟨.c225s, sock, none, none, [.SleepCS .readyForDeletionCond]⟩
  | .c225s => -- asleep
      if ch.spurious then some ⟨.c225w, sock, cs, none, []⟩ else none
  | .c225w => -- woken: SleepCS takes _cs again and returns
      if cs = none then some ⟨.c223, sock, some i, none, []⟩ else none
  | .c227 => -- _closeBlockingCompleted = true;
      some ⟨.c228, { sock with closeBlockingCompleted := true }, cs, none, []⟩
  | .c228 => -- _closeBlockingCompletedCond->Wake();
      some ⟨.c229, sock, cs, some .closeBlockingCompletedCond,
        [.Wake .closeBlockingCompletedCond]⟩
  | .c229 => -- _cs->Leave();
      some ⟨.c230, sock, none, none, []⟩
  | .c230 => -- end of CloseBlocking
      none
  -- ReadyForDeletion
  | .r234 => -- _cs->Enter();
      if cs = none then some ⟨.r235, sock, some i, none, []⟩ else none
  | .r235 => -- if(!_closeBlockingActive)
      if !sock.closeBlockingActive then some ⟨.r237, sock, cs, none, []⟩
      else some ⟨.r240, sock, cs, none, []⟩
  | .r237 => -- _cs->Leave();
      some ⟨.r238, sock, none, none, []⟩
  | .r238 => -- return;
      none
  | .r240 => -- close(_socket);
      some ⟨.r241, sock, cs, none, [.close sock.socket]⟩
  | .r241 => -- _socket = INVALID_SOCKET;
      some ⟨.r242, { sock with socket := INVALID_SOCKET }, cs, none, []⟩
  | .r242 => -- _readyForDeletion = true;
      some ⟨.r243, { sock with readyForDeletion := true }, cs, none, []⟩
  | .r243 => -- _readyForDeletionCond->Wake();
      some ⟨.r244, sock, cs, some .readyForDeletionCond, [.Wake .readyForDeletionCond]⟩
  | .r244 => -- while(!_closeBlockingCompleted)
      if !sock.closeBlockingCompleted then some ⟨.r246, sock, cs, none, []⟩
      else some ⟨.r248, sock, cs, none, []⟩
  | .r246 => -- _closeBlockingCompletedCond->SleepCS(*_cs); releases _cs and sleeps
      some ⟨.r246s, sock, none, none, [.SleepCS .closeBlockingCompletedCond]⟩
  | .r246s => -- asleep
      if ch.spurious then some ⟨.r246w, sock, cs, none, []⟩ else none
  | .r246w => -- woken: SleepCS takes _cs again and returns
      if cs = none then some ⟨.r244, sock, some i, none, []⟩ else none
  | .r248 => -- _cs->Leave();
      some ⟨.r249, sock, none, none, []⟩
  | .r249 => -- end of ReadyForDeletion
      none
  -- member functions that do not block
  | .call op => some ⟨.done, (op.run sock).1, cs, none, (op.run sock).2⟩
  | .done => none

/-- The threads after a statement that signals `wake`. -/
def signal (wake : Option Cond) (pick : Nat) (ts : List Pc) : List Pc :=
  match wake with
  | none => ts
  | some c => Wake c pick ts

/-- One statement of thread `ch.tid` in the system; `none` when the thread
does not exist or cannot move. -/
def step (s : Sys) (ch : Choice) : Option Sys :=
  match s.threads[ch.tid]? with
  | none => none
  | some pc =>
    match stmt pc ch.tid s.sock s.cs ch with
    | none => none
    | some e =>
        some { sock := e.sock
               cs := e.cs
               threads := (signal e.wake ch.pick s.threads).set ch.tid e.pc
               trace := s.trace ++ e.calls.map (fun c => (ch.tid, c)) }

/-- Run a schedule; a decision whose thread cannot move is skipped. -/
def exec (s : Sys) : List Choice → Sys
  | [] => s
  | ch :: rest => exec ((step s ch).getD s) rest

/-- The decision "thread `i` moves", with the manager answering `removed`. -/
def move (i : Nat) (removed : Bool) : Choice :=
  { tid := i, pick := 0, removed := removed, spurious := false }

/-! ## Predicates used in the statements -/

/-- The calls of the registered callback among the outside calls. -/
def sinkCalls (calls : List Event) : List Event :=
  calls.filter fun e =>
    match e with
    | .incomingCb _ _ _ _ _ => true
    | _ => false

/-- Whether `socket(2)` handed out a descriptor. -/
def SocketResult.succeeded : SocketResult → Bool
  | .fd _ => true
  | .failed => false

/-- A thread that has not started its call yet. -/
def Pc.isEntry : Pc → Bool
  | .c214 | .r234 | .call _ => true
  | _ => false

/-- The teardown facts only ever become true: a closed handle stays closed,
and the two flags, once set, stay set. -/
def Le (a b : UdpSocketLinux) : Prop :=
  (a.socket = INVALID_SOCKET → b.socket = INVALID_SOCKET)
    ∧ (a.readyForDeletion = true → b.readyForDeletion = true)
    ∧ (a.closeBlockingCompleted = true → b.closeBlockingCompleted = true)

/-- A property of one thread and the data members that every statement of
that thread re-establishes and that no other thread can break. -/
structure Stable (Q : UdpSocketLinux → Pc → Prop) : Prop where
  own : ∀ pc i sock cs ch e, stmt pc i sock cs ch = some e → Q sock pc → Q e.sock e.pc
  mono : ∀ a b p, Le a b → Q a p → Q b p
  woken : ∀ a p, Q a p → Q a p.woken

/-- What a thread has established once it stands at a program counter. -/
def Good (sock : UdpSocketLinux) : Pc → Prop
  | .c227 => sock.readyForDeletion = true
  | .c228 | .c229 | .c230 =>
      sock.readyForDeletion = true ∧ sock.closeBlockingCompleted = true
  | .r242 => sock.socket = INVALID_SOCKET
  | .r243 | .r244 | .r246 | .r246s | .r246w =>
      sock.socket = INVALID_SOCKET ∧ sock.readyForDeletion = true
  | .r248 | .r249 =>
      sock.socket = INVALID_SOCKET ∧ sock.readyForDeletion = true
        ∧ sock.closeBlockingCompleted = true
  | _ => True

/-- A thread inside `ReadyForDeletion` past the test of line 235, with what
it has established so far. -/
def Closing (sock : UdpSocketLinux) : Pc → Prop
  | .r240 | .r241 => True
  | .r242 => sock.socket = INVALID_SOCKET
  | .r243 | .r244 | .r246 | .r246s | .r246w =>
      sock.socket = INVALID_SOCKET ∧ sock.readyForDeletion = true
  | .r248 | .r249 =>
      sock.socket = INVALID_SOCKET ∧ sock.readyForDeletion = true
        ∧ sock.closeBlockingCompleted = true
  | _ => False

/-- The state every run starts from keeps: a set `_readyForDeletion` comes
with a closed handle, and every thread has established what `Good` says. -/
def Inv (s : Sys) : Prop :=
  (s.sock.readyForDeletion = true → s.sock.socket = INVALID_SOCKET)
    ∧ ∀ (i : Nat) (p : Pc), s.threads[i]? = some p → Good s.sock p


/-- The calls of the registered callback recorded in a system trace. -/
def traceSinkCalls (tr : List (Nat × Event)) : List Event :=
  sinkCalls (tr.map Prod.snd)



/-- Program counters inside the critical section `_cs`: after `Enter` (or
after `SleepCS` has returned) and up to the next `Leave` or `SleepCS`. -/
def Pc.inCS : Pc → Bool
  | .c215 | .c216 | .c218 | .c219 | .c223 | .c225 | .c227 | .c228 | .c229 => true
  | .r235 | .r237 | .r240 | .r241 | .r242 | .r243 | .r244 | .r246 | .r248 => true
  | _ => false

/-- Lock discipline: a thread inside the critical section is its holder. -/
def Locked (s : Sys) : Prop :=
  ∀ (j : Nat) (p : Pc), s.threads[j]? = some p → p.inCS = true → s.cs = some j

/-- A closed handle with `_readyForDeletion` still false means that a thread
of `ReadyForDeletion` stands between lines 241 and 242. -/
def Mid (s : Sys) : Prop :=
  s.sock.socket = INVALID_SOCKET → s.sock.readyForDeletion = false →
    ∃ j : Nat, s.threads[j]? = some .r242


/-! ## Capture capabilities (`device_info_linux.cc`) -/

namespace videocapturemodule

/-- Pixel format code `V4L2_PIX_FMT_YUV420` of `<linux/videodev2.h>`
(`v4l2_fourcc` of the characters Y, U, 1, 2). -/
def V4L2_PIX_FMT_YUV420 : Nat := 0x32315559

/-- Pixel format code `V4L2_PIX_FMT_YUYV` of `<linux/videodev2.h>`
(`v4l2_fourcc` of the characters Y, U, Y, V). -/
def V4L2_PIX_FMT_YUYV : Nat := 0x56595559

/-- Buffer type `V4L2_BUF_TYPE_VIDEO_CAPTURE` of `<linux/videodev2.h>`. -/
def V4L2_BUF_TYPE_VIDEO_CAPTURE : Nat := 1

/-- The fields of `struct v4l2_format` the function reads or writes; `other`
stands for every remaining byte of the structure, which the driver may
write. -/
structure v4l2_format where
  bufType : Nat
  width : Nat
  height : Nat
  pixelformat : Nat
  sizeimage : Nat
  other : Nat
  deriving DecidableEq

/-- The value an unsigned 32-bit field takes when stored in a
`WebRtc_Word32`. -/
def toWord32 (u : Nat) : Int :=
  if u % 2 ^ 32 < 2 ^ 31 then ((u % 2 ^ 32 : Nat) : Int) else ((u % 2 ^ 32 : Nat) : Int) - 2 ^ 32

/-- Raw type of a capability: what the constructor of
`VideoCaptureCapability` left there, or `kVideoYUY2`. -/
inductive RawVideoType where
  | asConstructed
  | kVideoYUY2
  deriving DecidableEq

/-- The members of `VideoCaptureCapability` the function writes. -/
structure VideoCaptureCapability where
  width : Int
  height : Int
  expectedCaptureDelay : Int
  rawType : RawVideoType
  maxFPS : Int
  deriving DecidableEq

/-- Modelled from the spec: the "ordered sequence of capability records",
class `MapWrapper` (not part of the sources at hand): the items in the order
of their integer keys, one item for each key. -/
abbrev MapWrapper := List (Int × VideoCaptureCapability)

/-- Modelled from the spec: `MapWrapper::Insert(id, item)` puts the item
under the key, in key order, in place of an item already under that key. -/
def MapWrapper.Insert : MapWrapper → Int → VideoCaptureCapability → MapWrapper
  | [], id, item => [(id, item)]
  | (k, v) :: rest, id, item =>
      if id < k then (id, item) :: (k, v) :: rest
      else if id = k then (id, item) :: rest
      else (k, v) :: MapWrapper.Insert rest id item

/-- Modelled from the spec: `MapWrapper::Size()`, the number of items. -/
def MapWrapper.Size (m : MapWrapper) : Int := (m.length : Int)

/-- One call `ioctl(fd, VIDIOC_TRY_FMT, &video_fmt)`: the structure handed
in, the value returned, and the structure as the driver left it. -/
structure Probe where
  req : v4l2_format
  ret : Int
  ans : v4l2_format
  deriving DecidableEq

/-- The local array `videoFormats`. -/
def videoFormats : List Nat := [V4L2_PIX_FMT_YUV420, V4L2_PIX_FMT_YUYV]

/-- The local `totalFmts`. -/
def totalFmts : Nat := 2

/-- The local array `size`. -/
def size : List (Nat × Nat) :=
  [(128, 96), (160, 120), (176, 144), (320, 240), (352, 288), (640, 480), (704, 576),
   (800, 600), (960, 720), (1280, 720), (1024, 768), (1440, 1080), (1920, 1080)]

/-- The local `sizes`. -/
def sizes : Nat := 13

/-- The variables of `FillCapabilityMap` that change in its loops, with the
record of the `ioctl` calls made so far. -/
structure FillState where
  video_fmt : v4l2_format
  index : Int
  captureCapabilities : MapWrapper
  probes : List Probe
  deriving DecidableEq

/-- Body of the inner loop of `FillCapabilityMap` for format number `fmts`
and size number `i`; `ioctl` is the answer of the driver to `VIDIOC_TRY_FMT`
as a function of the structure handed in. -/
def fillBody (ioctl : v4l2_format → Int × v4l2_format) (fmts i : Nat) (st : FillState) :
    FillState :=
  let fmt := videoFormats.getD fmts 0
  let sz := size.getD i (0, 0)
  let req := { st.video_fmt with pixelformat := fmt, width := sz.1, height := sz.2 }
  let ret := (ioctl req).1
  let ans := (ioctl req).2
  let st1 := { st with video_fmt := ans, probes := st.probes ++ [{ req := req, ret := ret, ans := ans }] }
  if ret ≥ 0 then
    if ans.width = sz.1 ∧ ans.height = sz.2 then
      let width := toWord32 ans.width
      let cap : VideoCaptureCapability :=
        { width := width
          height := toWord32 ans.height
          expectedCaptureDelay := 120
          rawType := if fmt = V4L2_PIX_FMT_YUYV then .kVideoYUY2 else .asConstructed
          maxFPS := if width ≥ 800 then 15 else 30 }
      { st1 with captureCapabilities := st1.captureCapabilities.Insert st1.index cap
                 index := st1.index + 1 }
    else st1
  else st1

/-- What `FillCapabilityMap` leaves behind: the map, the record of its
`ioctl` calls, and the value it returned. -/
structure FillResult where
  captureCapabilities : MapWrapper
  probes : List Probe
  ret : Int
  deriving DecidableEq

/-- Member `DeviceInfoLinux::FillCapabilityMap(fd)`; `captureCapabilities` is
the member `_captureCapabilities` on entry. -/
def FillCapabilityMap (ioctl : v4l2_format → Int × v4l2_format)
    (captureCapabilities : MapWrapper) : FillResult :=
  let video_fmt : v4l2_format :=
    { bufType := V4L2_BUF_TYPE_VIDEO_CAPTURE, width := 0, height := 0, pixelformat := 0,
      sizeimage := 0, other := 0 }
  let st0 : FillState :=
    { video_fmt := video_fmt, index := 0, captureCapabilities := captureCapabilities,
      probes := [] }
  let st := (List.range totalFmts).foldl
    (fun st fmts => (List.range sizes).foldl (fun st i => fillBody ioctl fmts i st) st) st0
  { captureCapabilities := st.captureCapabilities
    probes := st.probes
    ret := st.captureCapabilities.Size }

/-- The format and size a probe asked for. -/
def Probe.asked (p : Probe) : Nat × Nat × Nat :=
  (p.req.pixelformat, p.req.width, p.req.height)

/-- A probe that succeeded and handed back the width and height it was
asked for. -/
def Probe.accepted (p : Probe) : Bool :=
  decide (p.ret ≥ 0) && decide (p.ans.width = p.req.width) && decide (p.ans.height = p.req.height)

/-- The capability recorded for an accepted probe, in terms of what was
asked for. -/
def Probe.capability (p : Probe) : VideoCaptureCapability :=
  { width := (p.req.width : Int)
    height := (p.req.height : Int)
    expectedCaptureDelay := 120
    rawType := if p.req.pixelformat = V4L2_PIX_FMT_YUYV then .kVideoYUY2 else .asConstructed
    maxFPS := if p.req.width ≥ 800 then 15 else 30 }

/-- The items under the consecutive keys `k`, `k + 1`, ... -/
def indexedFrom (k : Int) : List VideoCaptureCapability → MapWrapper
  | [] => []
  | c :: cs => (k, c) :: indexedFrom (k + 1) cs

/-- The 26 candidates in the order of the loops: every size for the first
format, then every size for the second. -/
def candidates : List (Nat × Nat × Nat) :=
  (size.map fun sz => (V4L2_PIX_FMT_YUV420, sz.1, sz.2))
    ++ (size.map fun sz => (V4L2_PIX_FMT_YUYV, sz.1, sz.2))

/-- What the loops of `FillCapabilityMap` keep true, for the driver `ioctl`
and a map that was empty on entry. -/
def FillInv (ioctl : v4l2_format → Int × v4l2_format) (st : FillState) : Prop :=
  st.captureCapabilities
      = indexedFrom 0 ((st.probes.filter Probe.accepted).map Probe.capability)
    ∧ st.index = ((st.probes.filter Probe.accepted).length : Int)
    ∧ ∀ p ∈ st.probes, p.ret = (ioctl p.req).1 ∧ p.ans = (ioctl p.req).2

/-- The probe the loop body makes for format number `fmts` and size number
`i` in state `st`. -/
def probeOf (ioctl : v4l2_format → Int × v4l2_format) (fmts i : Nat) (st : FillState) : Probe :=
  { req := { st.video_fmt with
               pixelformat := videoFormats.getD fmts 0
               width := (size.getD i (0, 0)).1
               height := (size.getD i (0, 0)).2 }
    ret := (ioctl { st.video_fmt with
               pixelformat := videoFormats.getD fmts 0
               width := (size.getD i (0, 0)).1
               height := (size.getD i (0, 0)).2 }).1
    ans := (ioctl { st.video_fmt with
               pixelformat := videoFormats.getD fmts 0
               width := (size.getD i (0, 0)).1
               height := (size.getD i (0, 0)).2 }).2 }

/-- The state after a probe, told in terms of the probe: an accepted probe
adds its capability under the next index, any other probe adds nothing. -/
def FillState.record (st : FillState) (p : Probe) : FillState :=
  if p.accepted then
    { video_fmt := p.ans
      index := st.index + 1
      captureCapabilities := st.captureCapabilities.Insert st.index p.capability
      probes := st.probes ++ [p] }
  else
    { st with video_fmt := p.ans, probes := st.probes ++ [p] }

end videocapturemodule


/-! ## Measure and invariant of the teardown rendezvous -/

/-- How many statements a thread standing at a program counter can still
execute, at most, when no sleeper wakes without a signal. -/
def rank (sock : UdpSocketLinux) : Pc → Nat
  | .c214 => 12 | .c215 => 11 | .c216 => 10
  | .c218 => 2 | .c219 => 1 | .c220 => 0
  | .c223 => if sock.readyForDeletion then 4 else 8
  | .c225 => 7 | .c225s => 6
  | .c225w => if sock.readyForDeletion then 5 else 9
  | .c227 => 3 | .c228 => 2 | .c229 => 1 | .c230 => 0
  | .r234 => 13 | .r235 => 12 | .r237 => 1 | .r238 => 0
  | .r240 => 11 | .r241 => 10 | .r242 => 9 | .r243 => 8
  | .r244 => if sock.closeBlockingCompleted then 2 else 6
  | .r246 => 5 | .r246s => 4
  | .r246w => if sock.closeBlockingCompleted then 3 else 7
  | .r248 => 1 | .r249 => 0
  | .call _ => 1 | .done => 0

/-- The sum of the ranks of all threads. -/
def Sys.measure (s : Sys) : Nat := (s.threads.map (rank s.sock)).sum

/-- The number of decisions of a schedule that move a thread. -/
def moves (s : Sys) : List Choice → Nat
  | [] => 0
  | ch :: rest =>
      match step s ch with
      | none => moves s rest
      | some s' => 1 + moves s' rest

/-- Program counters of a `CloseBlocking` call once `CleanUp` has returned
true. -/
def Pc.inClose : Pc → Bool
  | .c223 | .c225 | .c225s | .c225w | .c227 | .c228 | .c229 | .c230 => true
  | _ => false

/-- Program counters of a `ReadyForDeletion` call that does not take the
early return. -/
def Pc.inReady : Pc → Bool
  | .r234 | .r235 | .r240 | .r241 | .r242 | .r243 | .r244 | .r246 | .r246s | .r246w
  | .r248 | .r249 => true
  | _ => false

/-- `ReadyForDeletion` has executed `close(_socket)` (line 240). -/
def Pc.hasClosed : Pc → Bool
  | .r241 | .r242 | .r243 | .r244 | .r246 | .r246s | .r246w | .r248 | .r249 => true
  | _ => false

/-- `ReadyForDeletion` has executed `_socket = INVALID_SOCKET` (line 241). -/
def Pc.hasStored : Pc → Bool
  | .r242 | .r243 | .r244 | .r246 | .r246s | .r246w | .r248 | .r249 => true
  | _ => false

/-- `ReadyForDeletion` has executed `_readyForDeletion = true` (line 242). -/
def Pc.hasSet : Pc → Bool
  | .r243 | .r244 | .r246 | .r246s | .r246w | .r248 | .r249 => true
  | _ => false

/-- `CloseBlocking` has executed `_closeBlockingCompleted = true` (line 227). -/
def Pc.hasAcked : Pc → Bool
  | .c228 | .c229 | .c230 => true
  | _ => false

/-- The number of `close` calls in a trace. -/
def closes (tr : List (Nat × Event)) : Nat :=
  (tr.filter fun e =>
    match e.2 with
    | .close _ => true
    | _ => false).length

/-- The facts that hold of one `CloseBlocking` call (thread 0, at `pA`) past
its `CleanUp` and one `ReadyForDeletion` call (thread 1, at `pR`); `n0` is the
number of `close` calls made before. -/
def RendezvousAt (n0 : Nat) (pA pR : Pc) (s : Sys) : Prop :=
  pA.inClose = true ∧ pR.inReady = true
    ∧ s.sock.closeBlockingActive = true
    ∧ (pA.inCS = true → s.cs = some 0) ∧ (pR.inCS = true → s.cs = some 1)
    ∧ (s.cs = none ∨ (s.cs = some 0 ∧ pA.inCS = true) ∨ (s.cs = some 1 ∧ pR.inCS = true))
    ∧ s.sock.readyForDeletion = pR.hasSet
    ∧ s.sock.closeBlockingCompleted = pA.hasAcked
    ∧ (pR.hasSet = true → pR ≠ .r243 → pA ≠ .c225 ∧ pA ≠ .c225s)
    ∧ (pA = .c229 ∨ pA = .c230 → pR ≠ .r246 ∧ pR ≠ .r246s)
    ∧ (pR.hasStored = true → s.sock.socket = INVALID_SOCKET)
    ∧ closes s.trace = n0 + (if pR.hasClosed then 1 else 0)

/-- The invariant of the system of these two threads. -/
def Rendezvous (n0 : Nat) (s : Sys) : Prop :=
  ∃ pA pR, s.threads = [pA, pR] ∧ RendezvousAt n0 pA pR s


/-! # Theorems -/

open UdpSocketLinux

/-! ## Tools: condition variables and thread lists -/

theorem length_wakeFirst (c : Cond) (ts : List Pc) : (wakeFirst c ts).length = ts.length := by
  induction ts with
  | nil => rfl
  | cons p ps ih => simp only [wakeFirst]; split <;> simp [ih]

@[simp] theorem length_Wake (c : Cond) (k : Nat) (ts : List Pc) :
    (Wake c k ts).length = ts.length := by
  unfold Wake
  split
  · split <;> simp [length_wakeFirst]
  · exact length_wakeFirst c ts

@[simp] theorem length_signal (w : Option Cond) (k : Nat) (ts : List Pc) :
    (signal w k ts).length = ts.length := by
  cases w <;> simp [signal]

theorem lt_of_getElem? {ts : List Pc} {i : Nat} {p : Pc} (h : ts[i]? = some p) :
    i < ts.length := by
  obtain ⟨hi, _⟩ := List.getElem?_eq_some.mp h
  exact hi

theorem wakeFirst_getElem? (c : Cond) (ts : List Pc) (i : Nat) (p : Pc)
    (h : ts[i]? = some p) :
    (wakeFirst c ts)[i]? = some p ∨ (wakeFirst c ts)[i]? = some p.woken := by
  induction ts generalizing i with
  | nil => simp at h
  | cons q qs ih =>
    simp only [wakeFirst]
    split
    · cases i with
      | zero => simp at h; subst h; right; simp
      | succ j => left; simpa using h
    · cases i with
      | zero => left; simpa using h
      | succ j => simpa using ih j (by simpa using h)

theorem Wake_getElem? (c : Cond) (k : Nat) (ts : List Pc) (i : Nat) (p : Pc)
    (h : ts[i]? = some p) :
    (Wake c k ts)[i]? = some p ∨ (Wake c k ts)[i]? = some p.woken := by
  unfold Wake
  split
  · rename_i q hq
    split
    · by_cases hik : k = i
      · subst hik
        rw [hq] at h; cases h
        right; simp [lt_of_getElem? hq]
      · left; simp [hik, h]
    · exact wakeFirst_getElem? c ts i p h
  · exact wakeFirst_getElem? c ts i p h

theorem signal_getElem? (w : Option Cond) (k : Nat) (ts : List Pc) (i : Nat) (p : Pc)
    (h : ts[i]? = some p) :
    (signal w k ts)[i]? = some p ∨ (signal w k ts)[i]? = some p.woken := by
  cases w with
  | none => left; simpa [signal] using h
  | some c => simpa [signal] using Wake_getElem? c k ts i p h

/-! ## Tools: what no statement undoes -/

theorem run_frame (op : Op) (s : UdpSocketLinux) :
    (op.run s).1.socket = s.socket ∧ (op.run s).1.readyForDeletion = s.readyForDeletion
      ∧ (op.run s).1.closeBlockingCompleted = s.closeBlockingCompleted
      ∧ (op.run s).1.closeBlockingActive = s.closeBlockingActive
      ∧ (op.run s).1.wantsIncoming = s.wantsIncoming := by
  cases op <;> simp only [Op.run, UdpSocketLinux.ChangeUniqueId, UdpSocketLinux.SetCallback,
    UdpSocketLinux.SetSockopt, UdpSocketLinux.SetTOS, UdpSocketLinux.SendTo,
    UdpSocketLinux.HasIncoming, UdpSocketLinux.Bind] <;> (repeat' split) <;> simp

theorem CleanUp_self (s : UdpSocketLinux) (b : Bool) :
    (CleanUp s b).self = { s with wantsIncoming := false } := by
  simp only [CleanUp]; split <;> rfl

theorem CleanUp_ret (s : UdpSocketLinux) (b : Bool) :
    (CleanUp s b).ret = !decide (s.socket = INVALID_SOCKET) := by
  simp only [CleanUp]; split <;> simp_all

theorem CleanUp_calls (s : UdpSocketLinux) (b : Bool) :
    (CleanUp s b).calls = if s.socket = INVALID_SOCKET then [] else [Event.RemoveSocket b] := by
  simp only [CleanUp]; split <;> simp_all

theorem stmt_Le {pc : Pc} {i : Nat} {sock : UdpSocketLinux} {cs : Option Nat} {ch : Choice}
    {e : Effect} (h : stmt pc i sock cs ch = some e) : Le sock e.sock := by
  have hfr := run_frame
  cases pc <;> simp only [stmt] at h <;> (try split at h) <;> simp at h <;> subst h <;>
    simp_all [Le, CleanUp_self]

theorem step_Stable {Q : UdpSocketLinux → Pc → Prop} (hQ : Stable Q) {s s' : Sys}
    {ch : Choice} {i : Nat} {p : Pc}
    (hs : step s ch = some s') (hp : s.threads[i]? = some p) (hg : Q s.sock p) :
    ∃ p', s'.threads[i]? = some p' ∧ Q s'.sock p' := by
  unfold step at hs
  cases hq : s.threads[ch.tid]? with
  | none => simp [hq] at hs
  | some q =>
    simp only [hq] at hs
    cases he : stmt q ch.tid s.sock s.cs ch with
    | none => simp [he] at hs
    | some e =>
      simp only [he, Option.some.injEq] at hs
      subst hs
      have hlt := lt_of_getElem? hq
      by_cases hi : i = ch.tid
      · subst hi
        rw [hq] at hp; cases hp
        exact ⟨e.pc, by simp [hlt], hQ.own _ _ _ _ _ _ he hg⟩
      · have hne : ¬ ch.tid = i := fun h => hi h.symm
        have hle := stmt_Le he
        rcases signal_getElem? e.wake ch.pick s.threads i p hp with h | h
        · exact ⟨p, by simp [hne, h], hQ.mono _ _ _ hle hg⟩
        · exact ⟨p.woken, by simp [hne, h], hQ.mono _ _ _ hle (hQ.woken _ _ hg)⟩

theorem exec_Stable {Q : UdpSocketLinux → Pc → Prop} (hQ : Stable Q) (sched : List Choice) :
    ∀ (s : Sys) (i : Nat) (p : Pc), s.threads[i]? = some p → Q s.sock p →
      ∃ p', (exec s sched).threads[i]? = some p' ∧ Q (exec s sched).sock p' := by
  induction sched with
  | nil => intro s i p hp hg; exact ⟨p, hp, hg⟩
  | cons ch rest ih =>
    intro s i p hp hg
    simp only [exec]
    cases hs : step s ch with
    | none => simpa using ih s i p hp hg
    | some s' =>
      obtain ⟨p', hp', hg'⟩ := step_Stable hQ hs hp hg
      simpa using ih s' i p' hp' hg'

theorem Good_Stable : Stable Good where
  own := by
    intro pc i sock cs ch e h hg
    have hfr := run_frame
    cases pc <;> simp only [stmt] at h <;> (try split at h) <;> simp at h <;> subst h <;>
      simp_all [Good, CleanUp_self]
  mono := by
    intro a b p hle hg
    obtain ⟨h1, h2, h3⟩ := hle
    cases p <;> simp_all [Good]
  woken := by
    intro a p hg
    cases p <;> simp_all [Good, Pc.woken]

theorem Closing_Stable : Stable Closing where
  own := by
    intro pc i sock cs ch e h hg
    have hfr := run_frame
    cases pc <;> simp only [stmt] at h <;> (try split at h) <;> simp at h <;> subst h <;>
      simp_all [Closing, CleanUp_self]
  mono := by
    intro a b p hle hg
    obtain ⟨h1, h2, h3⟩ := hle
    cases p <;> simp_all [Closing]
  woken := by
    intro a p hg
    cases p <;> simp_all [Closing, Pc.woken]

theorem stmt_ready {pc : Pc} {i : Nat} {sock : UdpSocketLinux} {cs : Option Nat} {ch : Choice}
    {e : Effect} (h : stmt pc i sock cs ch = some e) (hg : Good sock pc)
    (hr : sock.readyForDeletion = true → sock.socket = INVALID_SOCKET) :
    e.sock.readyForDeletion = true → e.sock.socket = INVALID_SOCKET := by
  have hfr := run_frame
  cases pc <;> simp only [stmt] at h <;> (try split at h) <;> simp at h <;> subst h <;>
    simp_all [Good, CleanUp_self]

theorem step_Inv {s s' : Sys} {ch : Choice} (hs : step s ch = some s') (hinv : Inv s) :
    Inv s' := by
  refine ⟨?_, ?_⟩
  · have hs' := hs
    unfold step at hs'
    cases hq : s.threads[ch.tid]? with
    | none => simp [hq] at hs'
    | some q =>
      simp only [hq] at hs'
      cases he : stmt q ch.tid s.sock s.cs ch with
      | none => simp [he] at hs'
      | some e =>
        simp only [he, Option.some.injEq] at hs'
        subst hs'
        exact stmt_ready he (hinv.2 _ _ hq) hinv.1
  · intro i p' hp'
    have hlen : s'.threads.length = s.threads.length := by
      unfold step at hs
      cases hq : s.threads[ch.tid]? with
      | none => simp [hq] at hs
      | some q =>
        simp only [hq] at hs
        cases he : stmt q ch.tid s.sock s.cs ch with
        | none => simp [he] at hs
        | some e =>
          simp only [he, Option.some.injEq] at hs
          subst hs
          simp
    have hi : i < s.threads.length := hlen ▸ lt_of_getElem? hp'
    obtain ⟨p, hp⟩ : ∃ p, s.threads[i]? = some p := ⟨s.threads[i], by simp [hi]⟩
    obtain ⟨p'', hp'', hg⟩ := step_Stable Good_Stable hs hp (hinv.2 i p hp)
    rw [hp'] at hp''
    cases hp''
    exact hg

theorem exec_Inv (sched : List Choice) : ∀ s : Sys, Inv s → Inv (exec s sched) := by
  induction sched with
  | nil => intro s h; exact h
  | cons ch rest ih =>
    intro s h
    simp only [exec]
    cases hs : step s ch with
    | none => simpa using ih s h
    | some s' => simpa using ih s' (step_Inv hs h)

theorem init_Inv (id : Int) (ipV6Enable : Bool) (r : SocketResult) (threads : List Pc)
    (hentry : ∀ p ∈ threads, p.isEntry = true) :
    Inv (Sys.init (construct id ipV6Enable r).self threads) := by
  refine ⟨by simp [Sys.init, construct], ?_⟩
  intro i p hp
  have hmem : p ∈ threads := List.getElem?_mem hp
  have := hentry p hmem
  cases p <;> simp_all [Pc.isEntry, Good]

theorem ValidHandle_of_invalid {s : UdpSocketLinux} (h : s.socket = INVALID_SOCKET) :
    ValidHandle s = false := by
  simp [ValidHandle, h]

/-! ## The claims -/

/-- C1: `SetTOS` hands back `-1` exactly when `SetSockopt(IPPROTO_IP, IP_TOS, .., 4)`
succeeded (the platform call answered 0) and `0` exactly when it failed: the
test `SetSockopt(..) != 0` reads the `bool` result as a failure code, so the
result is the opposite of the one claimed. -/
theorem SetTOS_ret_inverted (s : UdpSocketLinux) (serviceType : Int) (r : SysResult) :
    (SetSockopt s IPPROTO_IP IP_TOS (word32Bytes serviceType) 4 r).ret = decide (r.ret = 0)
      ∧ (SetTOS s serviceType r).ret = (if r.ret = 0 then -1 else 0)
      ∧ (SetTOS s serviceType r).calls
          = [Event.setsockopt s.socket IPPROTO_IP IP_TOS (word32Bytes serviceType) 4] := by
  unfold SetTOS SetSockopt boolToInt
  by_cases h : 0 = r.ret
  · have h' : r.ret = 0 := h.symm
    simp only [if_pos h, if_pos h']; simp [h']
  · have h' : ¬ r.ret = 0 := fun e => h e.symm
    simp only [if_neg h, if_neg h']; simp [h']

/-- C2, as stated, fails: on a freshly created socket with descriptor 5 the
manager answers `false` to `RemoveSocket`, and `CloseBlocking` still enters
the wait on `_readyForDeletionCond` and sleeps there. -/
theorem CloseBlocking_sleeps_after_RemoveSocket_false :
    (exec (Sys.init (construct 7 false (.fd 5)).self [.c214])
        (List.replicate 5 (move 0 false))).threads = [.c225s]
      ∧ (exec (Sys.init (construct 7 false (.fd 5)).self [.c214])
        (List.replicate 5 (move 0 false))).trace
          = [(0, .RemoveSocket false), (0, .SleepCS .readyForDeletionCond)] := by
  decide

/-- C2, amended: `CloseBlocking` run on its own from any state does not look
at the answer `b` of `RemoveSocket`. With the handle already `INVALID_SOCKET`
it returns at line 220 without calling `RemoveSocket` and without any
`SleepCS`; with a valid handle and `_readyForDeletion` false it calls
`RemoveSocket` and goes to sleep in `SleepCS`, whatever `b` is; with
`_readyForDeletion` already true it returns at line 230 without sleeping. In
each case the handle is the one it was. -/
theorem CloseBlocking_ignores_RemoveSocket_answer (s : Sys) (i : Nat) (b : Bool)
    (hpc : s.threads[i]? = some .c214) (hcs : s.cs = none) :
    exec s (List.replicate 7 (move i b))
        = (if s.sock.socket = INVALID_SOCKET then
            { sock := { s.sock with wantsIncoming := false, closeBlockingActive := false }
              cs := none
              threads := s.threads.set i .c220
              trace := s.trace }
          else if s.sock.readyForDeletion = false then
            { sock := { s.sock with wantsIncoming := false, closeBlockingActive := true }
              cs := none
              threads := s.threads.set i .c225s
              trace := s.trace ++ [(i, .RemoveSocket b), (i, .SleepCS .readyForDeletionCond)] }
          else
            { sock := { s.sock with wantsIncoming := false, closeBlockingActive := true,
                                    closeBlockingCompleted := true }
              cs := none
              threads := (Wake .closeBlockingCompletedCond 0 (s.threads.set i .c228)).set i .c230
              trace := s.trace ++ [(i, .RemoveSocket b), (i, .Wake .closeBlockingCompletedCond)] })
      ∧ (exec s (List.replicate 7 (move i b))).sock.socket = s.sock.socket := by
  have hi : i < s.threads.length := lt_of_getElem? hpc
  by_cases h1 : s.sock.socket = INVALID_SOCKET
  · simp [exec, step, stmt, signal, move, hpc, hcs, hi, h1, List.replicate, CleanUp_self,
      CleanUp_ret, CleanUp_calls]
  · by_cases h2 : s.sock.readyForDeletion = false
    · simp [exec, step, stmt, signal, move, hpc, hcs, hi, h1, h2, List.replicate, CleanUp_self,
        CleanUp_ret, CleanUp_calls]
    · simp [exec, step, stmt, signal, move, hpc, hcs, hi, h1, h2, List.replicate, CleanUp_self,
        CleanUp_ret, CleanUp_calls]

/-- C2, amended, at a concrete state: descriptor 5, one thread, the manager
answering `false`. -/
theorem CloseBlocking_ignores_RemoveSocket_answer_witness :
    (Sys.init (construct 7 false (.fd 5)).self [.c214]).threads[0]? = some .c214
      ∧ (Sys.init (construct 7 false (.fd 5)).self [.c214]).cs = none
      ∧ (exec (Sys.init (construct 7 false (.fd 5)).self [.c214])
          (List.replicate 7 (move 0 false))).sock.socket = 5 :=
  ⟨rfl, rfl,
    (CloseBlocking_ignores_RemoveSocket_answer
      (Sys.init (construct 7 false (.fd 5)).self [.c214]) 0 false rfl rfl).2⟩

/-- C3: from a freshly constructed socket and any threads that have not yet
started their calls, along every schedule, a thread of `CloseBlocking` that
stands past the wait loop (lines 227 to 229) or has returned after it (line
230) finds `_readyForDeletion` set and the handle equal to `INVALID_SOCKET`,
so `ValidHandle()` is false; once it has returned, `_closeBlockingCompleted`
is set as well. -/
theorem CloseBlocking_past_wait_handle_closed (id : Int) (ipV6Enable : Bool)
    (r : SocketResult) (threads : List Pc) (sched : List Choice) (i : Nat) (p : Pc)
    (hentry : ∀ q ∈ threads, q.isEntry = true)
    (hp : (exec (Sys.init (construct id ipV6Enable r).self threads) sched).threads[i]? = some p)
    (hpast : p = .c227 ∨ p = .c228 ∨ p = .c229 ∨ p = .c230) :
    (exec (Sys.init (construct id ipV6Enable r).self threads) sched).sock.socket = INVALID_SOCKET
      ∧ ValidHandle (exec (Sys.init (construct id ipV6Enable r).self threads) sched).sock = false
      ∧ (exec (Sys.init (construct id ipV6Enable r).self threads) sched).sock.readyForDeletion
          = true
      ∧ (p = .c230 →
          (exec (Sys.init (construct id ipV6Enable r).self threads)
            sched).sock.closeBlockingCompleted = true) := by
  have hinv := exec_Inv sched _ (init_Inv id ipV6Enable r threads hentry)
  have hg := hinv.2 i p hp
  have hready :
      (exec (Sys.init (construct id ipV6Enable r).self threads) sched).sock.readyForDeletion
        = true := by
    rcases hpast with h | h | h | h <;> subst h <;> simp_all [Good]
  have hsock := hinv.1 hready
  refine ⟨hsock, ValidHandle_of_invalid hsock, hready, ?_⟩
  intro h
  subst h
  exact hg.2

set_option maxRecDepth 8000 in
/-- C3 at a concrete run: descriptor 5, one thread in `CloseBlocking` and one
in `ReadyForDeletion`, scheduled so that both return. -/
theorem CloseBlocking_past_wait_handle_closed_witness :
    (exec (Sys.init (construct 7 false (.fd 5)).self [.c214, .r234])
        (List.replicate 5 (move 0 true) ++ List.replicate 8 (move 1 true)
          ++ List.replicate 5 (move 0 true) ++ List.replicate 3 (move 1 true))).threads
        = [.c230, .r249]
      ∧ (exec (Sys.init (construct 7 false (.fd 5)).self [.c214, .r234])
        (List.replicate 5 (move 0 true) ++ List.replicate 8 (move 1 true)
          ++ List.replicate 5 (move 0 true) ++ List.replicate 3 (move 1 true))).sock.socket
        = INVALID_SOCKET :=
  ⟨by decide,
    (CloseBlocking_past_wait_handle_closed 7 false (.fd 5) [.c214, .r234]
      (List.replicate 5 (move 0 true) ++ List.replicate 8 (move 1 true)
          ++ List.replicate 5 (move 0 true) ++ List.replicate 3 (move 1 true)) 0 .c230
      (by decide) (by decide) (by simp)).1⟩

/-- C4: with `_closeBlockingActive` false and the critical section free,
`ReadyForDeletion` run on its own takes the lock, fails the test of line 235,
releases the lock and returns at line 238: no data member changes, no outside
call is made (no `close`, no `SleepCS`), and the critical section is free
again. -/
theorem ReadyForDeletion_inactive_noop (s : Sys) (i : Nat) (b : Bool)
    (hpc : s.threads[i]? = some .r234) (hcs : s.cs = none)
    (hact : s.sock.closeBlockingActive = false) :
    exec s (List.replicate 3 (move i b)) = { s with threads := s.threads.set i .r238 } := by
  have hi : i < s.threads.length := lt_of_getElem? hpc
  simp [exec, step, stmt, signal, move, hpc, hcs, hact, hi, List.replicate]

/-- C4 at a concrete state: a freshly constructed socket with descriptor 5. -/
theorem ReadyForDeletion_inactive_noop_witness :
    (Sys.init (construct 7 false (.fd 5)).self [.r234]).sock.closeBlockingActive = false
      ∧ exec (Sys.init (construct 7 false (.fd 5)).self [.r234]) (List.replicate 3 (move 0 true))
        = { Sys.init (construct 7 false (.fd 5)).self [.r234] with threads := [.r238] } :=
  ⟨rfl,
    ReadyForDeletion_inactive_noop (Sys.init (construct 7 false (.fd 5)).self [.r234]) 0 true
      rfl rfl rfl⟩

/-- C5: with `_closeBlockingActive` true and the critical section free,
`ReadyForDeletion` run on its own passes the test of line 235 and, up to its
wait loop, calls `close` on the handle, stores `INVALID_SOCKET`, sets
`_readyForDeletion` and signals `_readyForDeletionCond`, changing nothing
else. Once a thread has passed that test (it stands at line 240), along every
schedule it never stands at the early `return` of line 238, and when it
stands at the end of the function (line 249) the handle is `INVALID_SOCKET`,
`_readyForDeletion` is true and `_closeBlockingCompleted` is true. Whenever it
stands at the loop test with `_closeBlockingCompleted` true, its next two
statements take it to the end of the function. -/
theorem ReadyForDeletion_closes_then_awaits_ack (s : Sys) (i : Nat) (b : Bool)
    (hpc : s.threads[i]? = some .r234) (hcs : s.cs = none)
    (hact : s.sock.closeBlockingActive = true) :
    (exec s (List.replicate 2 (move i b))).threads[i]? = some .r240
      ∧ exec s (List.replicate 6 (move i b))
        = { sock := { s.sock with socket := INVALID_SOCKET, readyForDeletion := true }
            cs := some i
            threads := (Wake .readyForDeletionCond 0 (s.threads.set i .r243)).set i .r244
            trace := s.trace ++ [(i, .close s.sock.socket), (i, .Wake .readyForDeletionCond)] }
      ∧ (∀ (t : Sys) (sched : List Choice) (p : Pc), t.threads[i]? = some .r240 →
          (exec t sched).threads[i]? = some p →
            p ≠ .r238
              ∧ (p = .r249 →
                  ValidHandle (exec t sched).sock = false
                    ∧ (exec t sched).sock.readyForDeletion = true
                    ∧ (exec t sched).sock.closeBlockingCompleted = true))
      ∧ (∀ t : Sys, t.threads[i]? = some .r244 → t.sock.closeBlockingCompleted = true →
          (exec t (List.replicate 2 (move i b))).threads[i]? = some .r249) := by
  have hi : i < s.threads.length := lt_of_getElem? hpc
  refine ⟨?_, ?_, ?_, ?_⟩
  · simp [exec, step, stmt, signal, move, hpc, hcs, hact, hi, List.replicate]
  · simp [exec, step, stmt, signal, move, hpc, hcs, hact, hi, List.replicate]
  · intro t sched p ht hp
    have hc : Closing t.sock .r240 := by simp [Closing]
    obtain ⟨p', hp', hc'⟩ := exec_Stable Closing_Stable sched t i _ ht hc
    rw [hp] at hp'
    cases hp'
    refine ⟨?_, ?_⟩
    · intro h; subst h; simp [Closing] at hc'
    · intro h; subst h
      simp only [Closing] at hc'
      exact ⟨ValidHandle_of_invalid hc'.1, hc'.2.1, hc'.2.2⟩
  · intro t ht hdone
    have hti : i < t.threads.length := lt_of_getElem? ht
    simp [exec, step, stmt, signal, move, ht, hdone, hti, List.replicate]

/-- C5 at a concrete state: descriptor 5 with `_closeBlockingActive` set. -/
theorem ReadyForDeletion_closes_then_awaits_ack_witness :
    (exec (Sys.init { (construct 7 false (.fd 5)).self with closeBlockingActive := true } [.r234])
        (List.replicate 6 (move 0 true))).trace
      = [(0, .close 5), (0, .Wake .readyForDeletionCond)] := by
  rw [(ReadyForDeletion_closes_then_awaits_ack
    (Sys.init { (construct 7 false (.fd 5)).self with closeBlockingActive := true } [.r234])
    0 true rfl rfl rfl).2.1]
  rfl

/-- C6: `HasIncoming` issues one `recvfrom` on a 2048-byte buffer, makes no
other outside call than that one and the callback calls, and leaves the
object as it is. It calls the registered callback exactly when
`_wantsIncoming` is true, `_incomingCb` is not null and the receive returned a
positive length, and then exactly once, with `_obj`, the received bytes, that
length and the source address; when the receive returned 0 or failed it makes
no callback call. -/
theorem HasIncoming_calls_sink_iff (s : UdpSocketLinux) (inc : Incoming) :
    sinkCalls (HasIncoming s inc).calls
        = (match s.wantsIncoming, s.incomingCb with
          | true, some cb =>
              if 0 < (recvfrom inc 2048).1 then
                [Event.incomingCb cb s.obj (recvfrom inc 2048).2.1 (recvfrom inc 2048).1
                  (recvfrom inc 2048).2.2]
              else []
          | _, _ => [])
      ∧ (HasIncoming s inc).calls
          = Event.recvfrom s.socket 2048 :: sinkCalls (HasIncoming s inc).calls
      ∧ (HasIncoming s inc).self = s := by
  cases inc with
  | fail =>
    simp only [HasIncoming, recvfrom, SOCKET_ERROR, sinkCalls]
    refine ⟨?_, ?_, ?_⟩
    · cases s.wantsIncoming <;> cases s.incomingCb <;> simp
    · simp
    · simp
  | datagram payload src =>
    simp only [HasIncoming, recvfrom, SOCKET_ERROR, sinkCalls]
    generalize (List.take 2048 payload).length = n
    generalize List.take 2048 payload = buf
    cases n with
    | zero =>
      refine ⟨?_, ?_, ?_⟩
      · cases s.wantsIncoming <;> cases s.incomingCb <;> simp
      · simp
      · simp
    | succ m =>
      have h0 : ¬ ((m + 1 : Nat) : Int) = 0 := by omega
      have h1 : ¬ ((m + 1 : Nat) : Int) = -1 := by omega
      have hpos : (0 : Int) < ((m + 1 : Nat) : Int) := by omega
      simp only [if_neg h0, if_neg h1, if_pos hpos]
      refine ⟨?_, ?_, ?_⟩
      · cases s.wantsIncoming <;> cases s.incomingCb <;> simp
      · cases s.wantsIncoming <;> cases s.incomingCb <;> simp
      · cases s.wantsIncoming <;> cases s.incomingCb <;> simp

/-- C7: whatever the size of the datagram the kernel holds, `HasIncoming`
asks `recvfrom` for 2048 bytes, and any call it makes of the registered
callback carries a length of at most 2048 that is the number of bytes
handed over, and these bytes are the first 2048 of the datagram. -/
theorem HasIncoming_sink_length_le_2048 (s : UdpSocketLinux) (inc : Incoming)
    (cb obj : Nat) (buf : List Int) (len : Int) (src : SocketAddress)
    (h : Event.incomingCb cb obj buf len src ∈ (HasIncoming s inc).calls) :
    len ≤ 2048 ∧ len = buf.length ∧ buf.length ≤ 2048
      ∧ Event.recvfrom s.socket 2048 ∈ (HasIncoming s inc).calls
      ∧ ∃ payload, inc = .datagram payload src ∧ buf = payload.take 2048 := by
  cases inc with
  | fail => simp [HasIncoming, recvfrom, SOCKET_ERROR] at h
  | datagram payload src' =>
    have hle : (List.take 2048 payload).length ≤ 2048 := by
      simp [List.length_take]
    simp only [HasIncoming, recvfrom, SOCKET_ERROR] at h ⊢
    generalize hn : (List.take 2048 payload).length = n at h hle ⊢
    cases n with
    | zero => simp at h
    | succ m =>
      have h0 : ¬ ((m + 1 : Nat) : Int) = 0 := by omega
      have h1 : ¬ ((m + 1 : Nat) : Int) = -1 := by omega
      simp only [if_neg h0, if_neg h1] at h ⊢
      cases hw : s.wantsIncoming <;> cases hc : s.incomingCb <;> simp only [hw, hc] at h ⊢ <;>
        simp at h
      obtain ⟨_, _, hb, hl, hsrc⟩ := h
      subst hb hsrc
      refine ⟨by omega, by omega, by omega, by simp, payload, rfl, rfl⟩

/-- C7 at the datagram of the scenario: 3000 bytes arrive, the callback gets
2048 of them. -/
theorem HasIncoming_sink_length_le_2048_witness :
    Event.incomingCb 1 0 (List.replicate 2048 0) 2048 9
        ∈ (HasIncoming
            { (construct 7 false (.fd 5)).self with wantsIncoming := true, incomingCb := some 1 }
            (.datagram (List.replicate 3000 0) 9)).calls
      ∧ (2048 : Int) ≤ 2048 :=
  ⟨by
      simp only [HasIncoming, recvfrom, List.take_replicate, List.length_replicate]
      rw [if_neg (by decide), if_neg (by decide)]
      exact List.mem_cons_of_mem _ (List.mem_singleton.mpr rfl),
    (HasIncoming_sink_length_le_2048
      { (construct 7 false (.fd 5)).self with wantsIncoming := true, incomingCb := some 1 }
      (.datagram (List.replicate 3000 0) 9) 1 0 (List.replicate 2048 0) 2048 9
      (by
        simp only [HasIncoming, recvfrom, List.take_replicate, List.length_replicate]
        rw [if_neg (by decide), if_neg (by decide)]
        exact List.mem_cons_of_mem _ (List.mem_singleton.mpr rfl))).1⟩

/-- C8: `SetCallback` stores `obj` and `cb`, calls `AddSocket` of the manager
once, and returns the answer of that call; whether the answer is true or
false, `_obj` and `_incomingCb` hold the new values and no other data member
changes. -/
theorem SetCallback_returns_AddSocket (s : UdpSocketLinux) (obj : Nat) (cb : Option Nat)
    (added : Bool) :
    (SetCallback s obj cb added).ret = added
      ∧ (SetCallback s obj cb added).calls = [Event.AddSocket added]
      ∧ (SetCallback s obj cb added).self = { s with obj := obj, incomingCb := cb } := by
  cases added <;> simp [SetCallback]

/-- C9: `SendTo` makes one `sendto` call with its arguments and returns the
result of that call as it is; `_error` takes the platform error code when the
result is `SOCKET_ERROR` and no data member changes otherwise. A 10-byte
payload the kernel accepts in full gives 10. -/
theorem SendTo_returns_sendto_result (s : UdpSocketLinux) (buf : List Int) (len : Int)
    (dst : SocketAddress) (r : SysResult) (errno : Int) :
    (SendTo s buf len dst r).ret = r.ret
      ∧ (SendTo s buf len dst r).calls = [Event.sendto s.socket buf len dst]
      ∧ (SendTo s buf len dst r).self
          = (if r.ret = SOCKET_ERROR then { s with error := r.errno } else s)
      ∧ (SendTo s buf 10 dst { ret := 10, errno := errno }).ret = 10
      ∧ (SendTo s buf 10 dst { ret := 10, errno := errno }).self = s := by
  refine ⟨?_, ?_, ?_, ?_, ?_⟩
  · simp only [SendTo]; split <;> rfl
  · simp only [SendTo]; split <;> rfl
  · simp only [SendTo]; split <;> rfl
  · simp [SendTo, SOCKET_ERROR]
  · simp [SendTo, SOCKET_ERROR]

/-- C10: for either address family, right after the constructor
`ValidHandle()` is true exactly when `socket(2)` handed out a descriptor; when
it failed, `_socket` holds `INVALID_SOCKET` and `ValidHandle()` is false. -/
theorem construct_ValidHandle_iff (id : Int) (ipV6Enable : Bool) (r : SocketResult) :
    ValidHandle (construct id ipV6Enable r).self = r.succeeded
      ∧ (construct id ipV6Enable .failed).self.socket = INVALID_SOCKET
      ∧ ValidHandle (construct id ipV6Enable .failed).self = false
      ∧ (construct id ipV6Enable r).calls.head? = some (Event.socket ipV6Enable) := by
  refine ⟨?_, rfl, rfl, rfl⟩
  cases r with
  | fd n =>
    simp only [ValidHandle, construct, SocketResult.toInt, SocketResult.succeeded,
      INVALID_SOCKET, bne_iff_ne, ne_eq]
    omega
  | failed => rfl

/-! ## Tools: dispatch after `CleanUp` -/

theorem sinkCalls_append (a b : List Event) : sinkCalls (a ++ b) = sinkCalls a ++ sinkCalls b := by
  simp [sinkCalls]

theorem HasIncoming_silent {s : UdpSocketLinux} (h : s.wantsIncoming = false) (inc : Incoming) :
    sinkCalls (HasIncoming s inc).calls = [] := by
  simp only [HasIncoming, h]
  split <;> (try split) <;> simp [sinkCalls]

theorem run_silent {s : UdpSocketLinux} (h : s.wantsIncoming = false) (op : Op) :
    sinkCalls (op.run s).2 = [] := by
  cases op with
  | HasIncoming inc => simpa [Op.run] using HasIncoming_silent h inc
  | ChangeUniqueId id => simp [Op.run, UdpSocketLinux.ChangeUniqueId, sinkCalls]
  | SetCallback obj cb added =>
    simp only [Op.run, UdpSocketLinux.SetCallback]; split <;> simp [sinkCalls]
  | SetSockopt level optname optval optlen r =>
    simp only [Op.run, UdpSocketLinux.SetSockopt]; split <;> simp [sinkCalls]
  | SetTOS serviceType r =>
    simp only [Op.run, UdpSocketLinux.SetTOS, UdpSocketLinux.SetSockopt]
    split <;> split <;> simp [sinkCalls]
  | Bind name r =>
    simp only [Op.run, UdpSocketLinux.Bind]; split <;> simp [sinkCalls]
  | SendTo buf len dst r =>
    simp only [Op.run, UdpSocketLinux.SendTo]; split <;> simp [sinkCalls]

theorem stmt_silent {pc : Pc} {i : Nat} {sock : UdpSocketLinux} {cs : Option Nat} {ch : Choice}
    {e : Effect} (h : stmt pc i sock cs ch = some e) (hw : sock.wantsIncoming = false) :
    e.sock.wantsIncoming = false ∧ sinkCalls e.calls = [] := by
  have hfr := run_frame
  cases pc with
  | call op =>
    simp only [stmt, Option.some.injEq] at h
    subst h
    exact ⟨by rw [(hfr op sock).2.2.2.2]; exact hw, run_silent hw op⟩
  | _ =>
    simp only [stmt] at h
    (try split at h) <;> simp at h <;> subst h <;>
      simp_all [CleanUp_self, CleanUp_calls, sinkCalls]

theorem step_silent {s s' : Sys} {ch : Choice} (hs : step s ch = some s')
    (hw : s.sock.wantsIncoming = false) :
    s'.sock.wantsIncoming = false ∧ traceSinkCalls s'.trace = traceSinkCalls s.trace := by
  unfold step at hs
  cases hq : s.threads[ch.tid]? with
  | none => simp [hq] at hs
  | some q =>
    simp only [hq] at hs
    cases he : stmt q ch.tid s.sock s.cs ch with
    | none => simp [he] at hs
    | some e =>
      simp only [he, Option.some.injEq] at hs
      subst hs
      obtain ⟨h1, h2⟩ := stmt_silent he hw
      refine ⟨h1, ?_⟩
      simp [traceSinkCalls, sinkCalls_append, Function.comp_def, h2]

theorem exec_silent (sched : List Choice) :
    ∀ s : Sys, s.sock.wantsIncoming = false →
      (exec s sched).sock.wantsIncoming = false
        ∧ traceSinkCalls (exec s sched).trace = traceSinkCalls s.trace := by
  induction sched with
  | nil => intro s h; exact ⟨h, rfl⟩
  | cons ch rest ih =>
    intro s h
    simp only [exec]
    cases hs : step s ch with
    | none => simpa using ih s h
    | some s' =>
      obtain ⟨h1, h2⟩ := step_silent hs h
      obtain ⟨h3, h4⟩ := ih s' h1
      exact ⟨by simpa using h3, by simpa [h2] using h4⟩

theorem ReadyForDeletion_inactive_run (s : Sys) (i : Nat) (b : Bool)
    (hpc : s.threads[i]? = some .r234) (hcs : s.cs = none)
    (hact : s.sock.closeBlockingActive = false) :
    exec s (List.replicate 3 (move i b)) = { s with threads := s.threads.set i .r238 } := by
  have hi : i < s.threads.length := lt_of_getElem? hpc
  simp [exec, step, stmt, signal, move, hpc, hcs, hact, hi, List.replicate]

/-! ## The claims, continued -/

/-- C12: `CleanUp` leaves `_wantsIncoming` false whatever the manager answers
and whether it returns true or false. Once a thread of `CloseBlocking` has
executed its `CleanUp` step, along every schedule `_wantsIncoming` stays
false, no call of the registered callback is added to the calls made so far,
and a `HasIncoming` run in the state reached makes no callback call for any
receive result. -/
theorem CleanUp_ends_dispatch (t : Sys) (i : Nat) (ch : Choice) (sched : List Choice)
    (inc : Incoming) (ht : t.threads[i]? = some .c216) (hch : ch.tid = i) :
    (CleanUp t.sock ch.removed).self.wantsIncoming = false
      ∧ (exec t (ch :: sched)).sock.wantsIncoming = false
      ∧ traceSinkCalls (exec t (ch :: sched)).trace = traceSinkCalls t.trace
      ∧ sinkCalls (HasIncoming (exec t (ch :: sched)).sock inc).calls = [] := by
  subst hch
  have hstep : ∃ t', step t ch = some t' ∧ t'.sock.wantsIncoming = false
      ∧ traceSinkCalls t'.trace = traceSinkCalls t.trace := by
    have hlt := lt_of_getElem? ht
    by_cases hsock : t.sock.socket = INVALID_SOCKET
    · refine ⟨_, by simp [step, stmt, ht, CleanUp_ret, hsock]; rfl, ?_, ?_⟩
      · simp [CleanUp_self]
      · simp [traceSinkCalls, CleanUp_calls, hsock]
    · refine ⟨_, by simp [step, stmt, ht, CleanUp_ret, hsock]; rfl, ?_, ?_⟩
      · simp [CleanUp_self]
      · simp [traceSinkCalls, CleanUp_calls, hsock, sinkCalls]
  obtain ⟨t', hs, hw, htr⟩ := hstep
  obtain ⟨h1, h2⟩ := exec_silent sched t' hw
  refine ⟨by simp [CleanUp_self], ?_, ?_, ?_⟩
  · simpa [exec, hs] using h1
  · simpa [exec, hs, htr] using h2
  · have : (exec t (ch :: sched)).sock.wantsIncoming = false := by simpa [exec, hs] using h1
    exact HasIncoming_silent this inc

/-- C12 at a concrete run: descriptor 5 with a callback registered and
`_wantsIncoming` set; after the `CleanUp` step a 3-byte datagram reaches no
callback. -/
theorem CleanUp_ends_dispatch_witness :
    sinkCalls (HasIncoming
        (exec
          (Sys.init
            { (construct 7 false (.fd 5)).self with
                wantsIncoming := true, incomingCb := some 1, closeBlockingActive := true }
            [.c216])
          [move 0 true]).sock
        (.datagram [1, 2, 3] 9)).calls = [] :=
  (CleanUp_ends_dispatch
    (Sys.init
      { (construct 7 false (.fd 5)).self with
          wantsIncoming := true, incomingCb := some 1, closeBlockingActive := true }
      [.c216])
    0 (move 0 true) [] (.datagram [1, 2, 3] 9) rfl rfl).2.2.2

/-- C15: with the handle already `INVALID_SOCKET` and the critical section
free, `CloseBlocking` run on its own returns at line 220: `_wantsIncoming` and
`_closeBlockingActive` are false afterwards, no other data member changes, no
outside call is made (no `RemoveSocket`, no `SleepCS`) and the critical
section is free again. A `ReadyForDeletion` run after it returns at line 238
and changes nothing. -/
theorem CloseBlocking_invalid_handle_returns (s : Sys) (i j : Nat) (b : Bool)
    (hi : s.threads[i]? = some .c214) (hj : s.threads[j]? = some .r234)
    (hcs : s.cs = none) (hsock : s.sock.socket = INVALID_SOCKET) :
    exec s (List.replicate 5 (move i b))
        = { s with sock := { s.sock with wantsIncoming := false, closeBlockingActive := false }
                   threads := s.threads.set i .c220 }
      ∧ exec (exec s (List.replicate 5 (move i b))) (List.replicate 3 (move j b))
        = { s with sock := { s.sock with wantsIncoming := false, closeBlockingActive := false }
                   threads := (s.threads.set i .c220).set j .r238 } := by
  have hil : i < s.threads.length := lt_of_getElem? hi
  have hjl : j < s.threads.length := lt_of_getElem? hj
  have hne : i ≠ j := by
    intro h; subst h; rw [hi] at hj; cases hj
  have h5 : exec s (List.replicate 5 (move i b))
        = { s with sock := { s.sock with wantsIncoming := false, closeBlockingActive := false }
                   threads := s.threads.set i .c220 } := by
    simp [exec, step, stmt, signal, move, hi, hcs, hil, hsock, List.replicate, CleanUp_self,
      CleanUp_ret, CleanUp_calls]
  refine ⟨h5, ?_⟩
  rw [h5]
  exact ReadyForDeletion_inactive_run _ j b (by simp [hne, hj]) hcs rfl

/-- C15 at a concrete state: the constructor failed to get a descriptor. -/
theorem CloseBlocking_invalid_handle_returns_witness :
    (exec (Sys.init (construct 7 false .failed).self [.c214, .r234])
        (List.replicate 5 (move 0 true))).threads = [.c220, .r234]
      ∧ (exec (Sys.init (construct 7 false .failed).self [.c214, .r234])
        (List.replicate 5 (move 0 true))).trace = [] := by
  rw [(CloseBlocking_invalid_handle_returns
    (Sys.init (construct 7 false .failed).self [.c214, .r234]) 0 1 true rfl rfl rfl rfl).1]
  exact ⟨rfl, rfl⟩

set_option maxRecDepth 8000 in
/-- C14, as stated, fails: after a complete teardown of descriptor 5 (one
`CloseBlocking`, one `ReadyForDeletion`), a second `ReadyForDeletion` does not
take the early return: it calls `close` again, on `INVALID_SOCKET`, and
signals `_readyForDeletionCond` again before it returns at line 249. -/
theorem second_ReadyForDeletion_closes_again :
    (exec (Sys.init (construct 7 false (.fd 5)).self [.c214, .r234, .r234])
        (List.replicate 5 (move 0 true) ++ List.replicate 8 (move 1 true)
          ++ List.replicate 5 (move 0 true) ++ List.replicate 3 (move 1 true))).threads
        = [.c230, .r249, .r234]
      ∧ (exec (Sys.init (construct 7 false (.fd 5)).self [.c214, .r234, .r234])
        (List.replicate 5 (move 0 true) ++ List.replicate 8 (move 1 true)
          ++ List.replicate 5 (move 0 true) ++ List.replicate 3 (move 1 true)
          ++ List.replicate 8 (move 2 true))).threads
        = [.c230, .r249, .r249]
      ∧ (exec (Sys.init (construct 7 false (.fd 5)).self [.c214, .r234, .r234])
        (List.replicate 5 (move 0 true) ++ List.replicate 8 (move 1 true)
          ++ List.replicate 5 (move 0 true) ++ List.replicate 3 (move 1 true)
          ++ List.replicate 8 (move 2 true))).trace.filter (fun e => e.1 = 2)
        = [(2, .close INVALID_SOCKET), (2, .Wake .readyForDeletionCond)] := by
  decide

/-- C14, amended: on a socket whose teardown has completed
(`_closeBlockingActive`, `_readyForDeletion` and `_closeBlockingCompleted`
true, handle `INVALID_SOCKET`), `ReadyForDeletion` run on its own passes the
test of line 235, calls `close` on `INVALID_SOCKET`, signals
`_readyForDeletionCond`, finds `_closeBlockingCompleted` true and returns at
line 249 without any `SleepCS`; every data member is as it was and the
critical section is free again. -/
theorem ReadyForDeletion_second_call (s : Sys) (i : Nat) (b : Bool)
    (hpc : s.threads[i]? = some .r234) (hcs : s.cs = none)
    (hact : s.sock.closeBlockingActive = true) (hready : s.sock.readyForDeletion = true)
    (hdone : s.sock.closeBlockingCompleted = true) (hsock : s.sock.socket = INVALID_SOCKET) :
    exec s (List.replicate 8 (move i b))
      = { s with
            threads := (Wake .readyForDeletionCond 0 (s.threads.set i .r243)).set i .r249
            trace := s.trace ++ [(i, .close INVALID_SOCKET), (i, .Wake .readyForDeletionCond)] } := by
  have hi : i < s.threads.length := lt_of_getElem? hpc
  obtain ⟨sock, cs, threads, trace⟩ := s
  obtain ⟨socket, wantsIncoming, error, id, obj, incomingCb, ready, active, completed⟩ := sock
  simp only at hpc hcs hact hready hdone hsock hi
  subst hcs hact hready hdone hsock
  simp [exec, step, stmt, signal, move, hpc, hi, List.replicate]

/-- C14, amended, at a concrete state: the flags of a completed teardown. -/
theorem ReadyForDeletion_second_call_witness :
    (exec
        (Sys.init
          { (construct 7 false .failed).self with
              readyForDeletion := true, closeBlockingActive := true,
              closeBlockingCompleted := true }
          [.r234])
        (List.replicate 8 (move 0 true))).trace
      = [(0, .close INVALID_SOCKET), (0, .Wake .readyForDeletionCond)] := by
  rw [ReadyForDeletion_second_call
    (Sys.init
      { (construct 7 false .failed).self with
          readyForDeletion := true, closeBlockingActive := true,
          closeBlockingCompleted := true }
      [.r234]) 0 true rfl rfl rfl rfl rfl rfl]
  rfl

/-! ## Tools: lock discipline and the handle invariant -/

theorem step_eq {s s' : Sys} {ch : Choice} (hs : step s ch = some s') :
    ∃ q e, s.threads[ch.tid]? = some q ∧ stmt q ch.tid s.sock s.cs ch = some e
      ∧ s' = { sock := e.sock
               cs := e.cs
               threads := (signal e.wake ch.pick s.threads).set ch.tid e.pc
               trace := s.trace ++ e.calls.map (fun c => (ch.tid, c)) } := by
  unfold step at hs
  cases hq : s.threads[ch.tid]? with
  | none => simp [hq] at hs
  | some q =>
    simp only [hq] at hs
    cases he : stmt q ch.tid s.sock s.cs ch with
    | none => simp [he] at hs
    | some e =>
      simp only [he, Option.some.injEq] at hs
      exact ⟨q, e, rfl, he, hs.symm⟩

theorem step_other {s s' : Sys} {ch : Choice} (hs : step s ch = some s') {j : Nat} {p : Pc}
    (hj : j ≠ ch.tid) (hp : s.threads[j]? = some p) :
    s'.threads[j]? = some p ∨ s'.threads[j]? = some p.woken := by
  obtain ⟨q, e, hq, he, rfl⟩ := step_eq hs
  have hne : ¬ ch.tid = j := fun h => hj h.symm
  rcases signal_getElem? e.wake ch.pick s.threads j p hp with h | h
  · left; simp [hne, h]
  · right; simp [hne, h]

theorem step_other_back {s s' : Sys} {ch : Choice} (hs : step s ch = some s') {j : Nat}
    {p' : Pc} (hj : j ≠ ch.tid) (hp' : s'.threads[j]? = some p') :
    ∃ p, s.threads[j]? = some p ∧ (p' = p ∨ p' = p.woken) := by
  obtain ⟨q, e, hq, he, hs'⟩ := step_eq hs
  have hlen : s'.threads.length = s.threads.length := by rw [hs']; simp
  have hjl : j < s.threads.length := hlen ▸ lt_of_getElem? hp'
  obtain ⟨p, hp⟩ : ∃ p, s.threads[j]? = some p := ⟨s.threads[j], by simp [hjl]⟩
  refine ⟨p, hp, ?_⟩
  rcases step_other hs hj hp with h | h
  · left; rw [hp'] at h; exact Option.some.inj h
  · right; rw [hp'] at h; exact Option.some.inj h

theorem woken_inCS (p : Pc) : p.woken.inCS = p.inCS := by
  cases p <;> rfl

theorem stmt_cs {q : Pc} {i : Nat} {sock : UdpSocketLinux} {cs : Option Nat} {ch : Choice}
    {e : Effect} (h : stmt q i sock cs ch = some e) (hq : q.inCS = true → cs = some i) :
    (e.pc.inCS = true → e.cs = some i) ∧ (∀ j, j ≠ i → cs = some j → e.cs = some j) := by
  cases q <;> simp only [stmt] at h <;> (try split at h) <;> simp at h <;> subst h <;>
    simp_all [Pc.inCS] <;> exact fun j hj h => hj h.symm

theorem step_Locked {s s' : Sys} {ch : Choice} (hs : step s ch = some s') (hl : Locked s) :
    Locked s' := by
  intro j p' hp' hin
  obtain ⟨q, e, hq, he, hs'⟩ := step_eq hs
  obtain ⟨h1, h2⟩ := stmt_cs he (hl _ _ hq)
  by_cases hj : j = ch.tid
  · subst hj
    have hlt := lt_of_getElem? hq
    rw [hs'] at hp' ⊢
    simp [hlt] at hp'
    subst hp'
    exact h1 hin
  · obtain ⟨p, hp, hpp⟩ := step_other_back hs hj hp'
    have hpin : p.inCS = true := by
      rcases hpp with h | h
      · rw [← h]; exact hin
      · rw [← woken_inCS, ← h]; exact hin
    rw [hs']
    exact h2 j hj (hl j p hp hpin)

theorem exec_Locked (sched : List Choice) : ∀ s : Sys, Locked s → Locked (exec s sched) := by
  induction sched with
  | nil => intro s h; exact h
  | cons ch rest ih =>
    intro s h
    simp only [exec]
    cases hs : step s ch with
    | none => simpa using ih s h
    | some s' => simpa using ih s' (step_Locked hs h)

theorem stmt_handle {q : Pc} {i : Nat} {sock : UdpSocketLinux} {cs : Option Nat} {ch : Choice}
    {e : Effect} (h : stmt q i sock cs ch = some e) :
    (q = .r241 ∧ e.pc = .r242) ∨ (q = .r242 ∧ e.sock.readyForDeletion = true)
      ∨ (q ≠ .r242 ∧ e.sock.socket = sock.socket
          ∧ e.sock.readyForDeletion = sock.readyForDeletion) := by
  have hfr := run_frame
  cases q <;> simp only [stmt] at h <;> (try split at h) <;> simp at h <;> subst h <;>
    simp_all [CleanUp_self]

theorem step_Mid {s s' : Sys} {ch : Choice} (hs : step s ch = some s') (hm : Mid s) :
    Mid s' := by
  intro hsock hready
  obtain ⟨q, e, hq, he, hs'⟩ := step_eq hs
  have hlt := lt_of_getElem? hq
  rcases stmt_handle he with ⟨_, hpc⟩ | ⟨_, hr⟩ | ⟨hne, h1, h2⟩
  · exact ⟨ch.tid, by rw [hs']; simp [hlt, hpc]⟩
  · rw [hs'] at hready; simp [hr] at hready
  · rw [hs'] at hsock hready
    simp only [h1, h2] at hsock hready
    obtain ⟨j, hj⟩ := hm hsock hready
    have hji : j ≠ ch.tid := by
      intro h; subst h; rw [hq] at hj; exact hne (Option.some.inj hj)
    rcases step_other hs hji hj with h | h
    · exact ⟨j, h⟩
    · exact ⟨j, h⟩

theorem exec_Mid (sched : List Choice) : ∀ s : Sys, Mid s → Mid (exec s sched) := by
  induction sched with
  | nil => intro s h; exact h
  | cons ch rest ih =>
    intro s h
    simp only [exec]
    cases hs : step s ch with
    | none => simpa using ih s h
    | some s' => simpa using ih s' (step_Mid hs h)

theorem exec_append (s : Sys) (a b : List Choice) : exec s (a ++ b) = exec (exec s a) b := by
  induction a generalizing s with
  | nil => rfl
  | cons ch rest ih => simp only [List.cons_append, exec]; exact ih _

theorem exec_Le (sched : List Choice) : ∀ s : Sys, Le s.sock (exec s sched).sock := by
  induction sched with
  | nil => intro s; exact ⟨id, id, id⟩
  | cons ch rest ih =>
    intro s
    simp only [exec]
    cases hs : step s ch with
    | none => simpa using ih s
    | some s' =>
      obtain ⟨q, e, hq, he, hs'⟩ := step_eq hs
      have h1 : Le s.sock s'.sock := by rw [hs']; exact stmt_Le he
      have h2 := ih s'
      simp only [Option.getD_some]
      exact ⟨fun h => h2.1 (h1.1 h), fun h => h2.2.1 (h1.2.1 h), fun h => h2.2.2 (h1.2.2 h)⟩

theorem ValidHandle_iff (s : UdpSocketLinux) :
    ValidHandle s = true ↔ s.socket ≠ INVALID_SOCKET := by
  simp [ValidHandle]

set_option maxRecDepth 8000 in
/-- C11, as stated, fails: on descriptor 5, once `CloseBlocking` sleeps in
`SleepCS` and `ReadyForDeletion` has executed line 241 but not yet line 242,
the handle is `INVALID_SOCKET` while `_readyForDeletion` is still false, so
`ValidHandle()` is not true exactly when the flag is false; a `SendTo` that
runs in this state, without taking the critical section, issues its `sendto`
on `INVALID_SOCKET`. -/
theorem handle_invalid_before_flag_is_set :
    (exec
        (Sys.init (construct 7 false (.fd 5)).self
          [.c214, .r234, .call (.SendTo [1, 2, 3] 3 9 { ret := -1, errno := 9 })])
        (List.replicate 5 (move 0 true) ++ List.replicate 4 (move 1 true))).threads
        = [.c225s, .r242, .call (.SendTo [1, 2, 3] 3 9 { ret := -1, errno := 9 })]
      ∧ ¬ (ValidHandle
            (exec
              (Sys.init (construct 7 false (.fd 5)).self
                [.c214, .r234, .call (.SendTo [1, 2, 3] 3 9 { ret := -1, errno := 9 })])
              (List.replicate 5 (move 0 true) ++ List.replicate 4 (move 1 true))).sock = true
          ↔ (exec
              (Sys.init (construct 7 false (.fd 5)).self
                [.c214, .r234, .call (.SendTo [1, 2, 3] 3 9 { ret := -1, errno := 9 })])
              (List.replicate 5 (move 0 true)
                ++ List.replicate 4 (move 1 true))).sock.readyForDeletion = false)
      ∧ (exec
          (Sys.init (construct 7 false (.fd 5)).self
            [.c214, .r234, .call (.SendTo [1, 2, 3] 3 9 { ret := -1, errno := 9 })])
          (List.replicate 5 (move 0 true) ++ List.replicate 4 (move 1 true)
            ++ [move 2 true])).trace.filter (fun e => e.1 = 2)
        = [(2, .sendto INVALID_SOCKET [1, 2, 3] 3 9)] := by
  decide

/-- C11, amended: from a socket whose constructor got a descriptor and any
threads that have not yet started their calls (each one a call of
`ChangeUniqueId`, `SetCallback`, `SetSockopt`, `SetTOS`, `Bind`, `SendTo`,
`HasIncoming`, `CloseBlocking` or `ReadyForDeletion`), along every schedule:
whenever the critical section is free, and more generally whenever no thread
stands between lines 241 and 242, `ValidHandle()` is true exactly when
`_readyForDeletion` is false; in every state a set `_readyForDeletion` comes
with an invalid handle; and once `_readyForDeletion` is set, it stays set and
the handle stays invalid whatever runs afterwards. -/
theorem handle_valid_iff_not_readyForDeletion (id : Int) (ipV6Enable : Bool) (n : Nat)
    (threads : List Pc) (sched : List Choice)
    (hentry : ∀ q ∈ threads, q.isEntry = true) :
    ((exec (Sys.init (construct id ipV6Enable (.fd n)).self threads) sched).cs = none →
        (ValidHandle (exec (Sys.init (construct id ipV6Enable (.fd n)).self threads) sched).sock
            = true
          ↔ (exec (Sys.init (construct id ipV6Enable (.fd n)).self threads)
              sched).sock.readyForDeletion = false))
      ∧ ((∀ j : Nat,
            (exec (Sys.init (construct id ipV6Enable (.fd n)).self threads) sched).threads[j]?
              ≠ some .r242) →
        (ValidHandle (exec (Sys.init (construct id ipV6Enable (.fd n)).self threads) sched).sock
            = true
          ↔ (exec (Sys.init (construct id ipV6Enable (.fd n)).self threads)
              sched).sock.readyForDeletion = false))
      ∧ ((exec (Sys.init (construct id ipV6Enable (.fd n)).self threads)
            sched).sock.readyForDeletion = true →
          ∀ later : List Choice,
            (exec (exec (Sys.init (construct id ipV6Enable (.fd n)).self threads) sched)
                later).sock.readyForDeletion = true
              ∧ ValidHandle
                  (exec (exec (Sys.init (construct id ipV6Enable (.fd n)).self threads) sched)
                    later).sock = false) := by
  have hinit : Inv (Sys.init (construct id ipV6Enable (.fd n)).self threads) :=
    init_Inv id ipV6Enable (.fd n) threads hentry
  have hlock0 : Locked (Sys.init (construct id ipV6Enable (.fd n)).self threads) := by
    intro j p hp hin
    have := hentry p (List.getElem?_mem hp)
    cases p <;> simp_all [Pc.isEntry, Pc.inCS]
  have hmid0 : Mid (Sys.init (construct id ipV6Enable (.fd n)).self threads) := by
    intro hsock
    simp only [Sys.init, construct, SocketResult.toInt, INVALID_SOCKET] at hsock
    omega
  have hinv := exec_Inv sched _ hinit
  have hlock := exec_Locked sched _ hlock0
  have hmid := exec_Mid sched _ hmid0
  have hfree : (∀ j : Nat,
        (exec (Sys.init (construct id ipV6Enable (.fd n)).self threads) sched).threads[j]?
          ≠ some .r242) →
      (ValidHandle (exec (Sys.init (construct id ipV6Enable (.fd n)).self threads) sched).sock
          = true
        ↔ (exec (Sys.init (construct id ipV6Enable (.fd n)).self threads)
            sched).sock.readyForDeletion = false) := by
    intro hno
    rw [ValidHandle_iff]
    constructor
    · intro hv
      cases hr : (exec (Sys.init (construct id ipV6Enable (.fd n)).self threads)
          sched).sock.readyForDeletion with
      | false => rfl
      | true => exact absurd (hinv.1 hr) hv
    · intro hr hsock
      obtain ⟨j, hj⟩ := hmid hsock hr
      exact hno j hj
  refine ⟨?_, hfree, ?_⟩
  · intro hcs
    apply hfree
    intro j hj
    have := hlock j .r242 hj rfl
    rw [hcs] at this
    cases this
  · intro hr later
    have hle := exec_Le later
      (exec (Sys.init (construct id ipV6Enable (.fd n)).self threads) sched)
    have hr' := hle.2.1 hr
    have hinv' := exec_Inv later _ hinv
    exact ⟨hr', ValidHandle_of_invalid (hinv'.1 hr')⟩

set_option maxRecDepth 8000 in
/-- C11, amended, at a concrete run: descriptor 5, one `CloseBlocking` and one
`ReadyForDeletion` run to their returns; the critical section is free, the
flag is set and the handle is invalid. -/
theorem handle_valid_iff_not_readyForDeletion_witness :
    (exec (Sys.init (construct 7 false (.fd 5)).self [.c214, .r234])
        (List.replicate 5 (move 0 true) ++ List.replicate 8 (move 1 true)
          ++ List.replicate 5 (move 0 true) ++ List.replicate 3 (move 1 true))).cs = none
      ∧ (ValidHandle (exec (Sys.init (construct 7 false (.fd 5)).self [.c214, .r234])
        (List.replicate 5 (move 0 true) ++ List.replicate 8 (move 1 true)
          ++ List.replicate 5 (move 0 true) ++ List.replicate 3 (move 1 true))).sock = true
        ↔ (exec (Sys.init (construct 7 false (.fd 5)).self [.c214, .r234])
        (List.replicate 5 (move 0 true) ++ List.replicate 8 (move 1 true)
          ++ List.replicate 5 (move 0 true)
          ++ List.replicate 3 (move 1 true))).sock.readyForDeletion = false) :=
  ⟨by decide,
    (handle_valid_iff_not_readyForDeletion 7 false 5 [.c214, .r234]
      (List.replicate 5 (move 0 true) ++ List.replicate 8 (move 1 true)
          ++ List.replicate 5 (move 0 true) ++ List.replicate 3 (move 1 true))
      (by decide)).1 (by decide)⟩

/-! ## Capture capabilities -/

namespace videocapturemodule

theorem Insert_indexedFrom (cs : List VideoCaptureCapability) (k : Int)
    (c : VideoCaptureCapability) :
    MapWrapper.Insert (indexedFrom k cs) (k + (cs.length : Int)) c = indexedFrom k (cs ++ [c]) := by
  induction cs generalizing k with
  | nil => simp [indexedFrom, MapWrapper.Insert]
  | cons c0 rest ih =>
    have h1 : ¬ (k + ((c0 :: rest).length : Int) < k) := by
      simp only [List.length_cons]; push_cast; omega
    have h2 : ¬ (k + ((c0 :: rest).length : Int) = k) := by
      simp only [List.length_cons]; push_cast; omega
    have h3 : k + ((c0 :: rest).length : Int) = (k + 1) + (rest.length : Int) := by
      simp only [List.length_cons]; push_cast; omega
    simp only [indexedFrom, MapWrapper.Insert, if_neg h1, if_neg h2, List.cons_append]
    rw [h3, ih (k + 1)]
    rfl

theorem length_indexedFrom (cs : List VideoCaptureCapability) (k : Int) :
    (indexedFrom k cs).length = cs.length := by
  induction cs generalizing k with
  | nil => rfl
  | cons c rest ih => simp [indexedFrom, ih]

theorem size_small (i : Nat) :
    (size.getD i (0, 0)).1 < 2 ^ 31 ∧ (size.getD i (0, 0)).2 < 2 ^ 31 := by
  by_cases h : i < 13
  · interval_cases i <;> decide
  · have : size.length ≤ i := by simp [size]; omega
    rw [List.getD_eq_default _ _ this]
    decide

theorem toWord32_small {u : Nat} (h : u < 2 ^ 31) : toWord32 u = (u : Int) := by
  have h1 : u % 2 ^ 32 = u := Nat.mod_eq_of_lt (by omega)
  simp only [toWord32, h1, if_pos h]

theorem maxFPS_eq (w : Nat) :
    (if ((w : Nat) : Int) ≥ 800 then (15 : Int) else 30) = (if w ≥ 800 then (15 : Int) else 30) := by
  by_cases h8 : w ≥ 800
  · have : ((w : Nat) : Int) ≥ 800 := by exact_mod_cast h8
    simp only [h8, this, if_true]
  · have : ¬ ((w : Nat) : Int) ≥ 800 := fun hc => h8 (by exact_mod_cast hc)
    simp only [h8, this, if_false]

theorem fillBody_eq_record (ioctl : v4l2_format → Int × v4l2_format) (fmts i : Nat)
    (st : FillState) :
    fillBody ioctl fmts i st = st.record (probeOf ioctl fmts i st) := by
  obtain ⟨hw, hh⟩ := size_small i
  unfold fillBody
  simp only []
  split
  · rename_i hret
    split
    · rename_i hwh
      have hacc : (probeOf ioctl fmts i st).accepted = true := by
        simp only [Probe.accepted, probeOf, Bool.and_eq_true, decide_eq_true_eq]
        exact ⟨⟨hret, hwh.1⟩, hwh.2⟩
      rw [FillState.record, if_pos hacc]
      simp only [hwh.1, hwh.2, toWord32_small hw, toWord32_small hh, maxFPS_eq, probeOf,
        Probe.capability]
    · rename_i hwh
      have hacc : (probeOf ioctl fmts i st).accepted = false := by
        simp only [Probe.accepted, probeOf, Bool.and_eq_false_iff, decide_eq_false_iff_not]
        by_contra hc
        push_neg at hc
        exact hwh ⟨hc.1.2, hc.2⟩
      rw [FillState.record, hacc]
      simp only [probeOf, Bool.false_eq_true, if_false]
  · rename_i hret
    have hacc : (probeOf ioctl fmts i st).accepted = false := by
      simp only [Probe.accepted, probeOf, Bool.and_eq_false_iff, decide_eq_false_iff_not]
      exact Or.inl (Or.inl hret)
    rw [FillState.record, hacc]
    simp only [probeOf, Bool.false_eq_true, if_false]

theorem record_FillInv (ioctl : v4l2_format → Int × v4l2_format) (st : FillState) (p : Probe)
    (h : FillInv ioctl st) (hp : p.ret = (ioctl p.req).1 ∧ p.ans = (ioctl p.req).2) :
    FillInv ioctl (st.record p) ∧ (st.record p).probes = st.probes ++ [p] := by
  obtain ⟨hmap, hidx, hans⟩ := h
  have hmem : ∀ q ∈ st.probes ++ [p], q.ret = (ioctl q.req).1 ∧ q.ans = (ioctl q.req).2 := by
    intro q hq
    simp only [List.mem_append, List.mem_singleton] at hq
    rcases hq with hq | hq
    · exact hans q hq
    · subst hq; exact hp
  cases hacc : p.accepted with
  | true =>
    simp only [FillState.record, hacc, if_true]
    refine ⟨⟨?_, ?_, hmem⟩, trivial⟩
    · simp only [List.filter_append, List.filter_cons, hacc, if_true, List.filter_nil,
        List.map_append, List.map_cons, List.map_nil, hmap, hidx]
      have := Insert_indexedFrom ((List.filter Probe.accepted st.probes).map Probe.capability) 0
        p.capability
      simp only [zero_add, List.length_map] at this
      exact this
    · simp only [List.filter_append, List.filter_cons, hacc, if_true, List.filter_nil,
        List.length_append, List.length_singleton, hidx]
      push_cast
      rfl
  | false =>
    simp only [FillState.record, hacc]
    refine ⟨⟨?_, ?_, hmem⟩, rfl⟩
    · simp [List.filter_append, List.filter_cons, hacc, hmap]
    · simp [List.filter_append, List.filter_cons, hacc, hidx]

theorem fillBody_FillInv (ioctl : v4l2_format → Int × v4l2_format) (fmts i : Nat)
    (st : FillState) (h : FillInv ioctl st) :
    FillInv ioctl (fillBody ioctl fmts i st)
      ∧ (fillBody ioctl fmts i st).probes.map Probe.asked
          = st.probes.map Probe.asked
            ++ [(videoFormats.getD fmts 0, (size.getD i (0, 0)).1, (size.getD i (0, 0)).2)] := by
  rw [fillBody_eq_record]
  obtain ⟨h1, h2⟩ := record_FillInv ioctl st (probeOf ioctl fmts i st) h ⟨rfl, rfl⟩
  refine ⟨h1, ?_⟩
  rw [h2, List.map_append]
  rfl

theorem inner_FillInv (ioctl : v4l2_format → Int × v4l2_format) (fmts : Nat) (n : Nat) :
    ∀ st : FillState, FillInv ioctl st →
      FillInv ioctl ((List.range n).foldl (fun st i => fillBody ioctl fmts i st) st)
        ∧ ((List.range n).foldl (fun st i => fillBody ioctl fmts i st) st).probes.map Probe.asked
            = st.probes.map Probe.asked
              ++ (List.range n).map fun i =>
                  (videoFormats.getD fmts 0, (size.getD i (0, 0)).1, (size.getD i (0, 0)).2) := by
  induction n with
  | zero => intro st h; exact ⟨h, by simp⟩
  | succ m ih =>
    intro st h
    obtain ⟨h1, h2⟩ := ih st h
    obtain ⟨h3, h4⟩ := fillBody_FillInv ioctl fmts m _ h1
    rw [List.range_succ, List.foldl_append, List.map_append]
    simp only [List.foldl_cons, List.foldl_nil, List.map_cons, List.map_nil]
    exact ⟨h3, by rw [h4, h2, List.append_assoc]⟩

theorem candidates_eq :
    ((List.range sizes).map fun i =>
        (videoFormats.getD 0 0, (size.getD i (0, 0)).1, (size.getD i (0, 0)).2))
      ++ ((List.range sizes).map fun i =>
        (videoFormats.getD 1 0, (size.getD i (0, 0)).1, (size.getD i (0, 0)).2))
      = candidates := by
  decide

/-- C16: for every driver and a map that is empty on entry,
`FillCapabilityMap` issues its 26 `VIDIOC_TRY_FMT` probes in the order of
`candidates` (the 13 sizes for `V4L2_PIX_FMT_YUV420`, then the 13 sizes for
`V4L2_PIX_FMT_YUYV`), each answered by the driver; the map on return holds,
under the keys 0, 1, 2, ... in probe order, one capability for each probe
that returned a value `>= 0` with the width and height asked for, and
nothing else; each capability carries that width and height,
`expectedCaptureDelay` 120 and `maxFPS` 15 when the width is at least 800 and
30 otherwise; the value returned is the number of items of the map, which is
at most 26. -/
theorem FillCapabilityMap_records_accepted_probes (ioctl : v4l2_format → Int × v4l2_format) :
    (FillCapabilityMap ioctl []).probes.map Probe.asked = candidates
      ∧ candidates.length = 26
      ∧ (∀ p ∈ (FillCapabilityMap ioctl []).probes,
          p.ret = (ioctl p.req).1 ∧ p.ans = (ioctl p.req).2)
      ∧ (FillCapabilityMap ioctl []).captureCapabilities
          = indexedFrom 0
              (((FillCapabilityMap ioctl []).probes.filter Probe.accepted).map Probe.capability)
      ∧ (FillCapabilityMap ioctl []).ret
          = (((FillCapabilityMap ioctl []).probes.filter Probe.accepted).length : Int)
      ∧ (FillCapabilityMap ioctl []).ret
          = ((FillCapabilityMap ioctl []).captureCapabilities.length : Int)
      ∧ (FillCapabilityMap ioctl []).ret ≤ 26 := by
  have h0 : FillInv ioctl
      { video_fmt :=
          { bufType := V4L2_BUF_TYPE_VIDEO_CAPTURE, width := 0, height := 0, pixelformat := 0,
            sizeimage := 0, other := 0 }
        index := 0, captureCapabilities := [], probes := [] } := by
    refine ⟨rfl, rfl, ?_⟩
    intro p hp
    cases hp
  obtain ⟨h1, a1⟩ := inner_FillInv ioctl 0 sizes _ h0
  obtain ⟨h2, a2⟩ := inner_FillInv ioctl 1 sizes _ h1
  have hrange : List.range totalFmts = [0, 1] := rfl
  have hasked : (FillCapabilityMap ioctl []).probes.map Probe.asked = candidates := by
    simp only [FillCapabilityMap, hrange, List.foldl_cons, List.foldl_nil]
    rw [a2, a1, ← candidates_eq]
    simp
  have hlen : (FillCapabilityMap ioctl []).probes.length = 26 := by
    have := congrArg List.length hasked
    simpa [candidates, size] using this
  obtain ⟨hmap, hidx, hans⟩ := h2
  have hmap' : (FillCapabilityMap ioctl []).captureCapabilities
      = indexedFrom 0
          (((FillCapabilityMap ioctl []).probes.filter Probe.accepted).map Probe.capability) := by
    simp only [FillCapabilityMap, hrange, List.foldl_cons, List.foldl_nil]
    exact hmap
  have hret : (FillCapabilityMap ioctl []).ret
      = ((FillCapabilityMap ioctl []).captureCapabilities.length : Int) := rfl
  have hcount : (FillCapabilityMap ioctl []).ret
      = (((FillCapabilityMap ioctl []).probes.filter Probe.accepted).length : Int) := by
    rw [hret, hmap', length_indexedFrom, List.length_map]
  refine ⟨hasked, by decide, ?_, hmap', hcount, hret, ?_⟩
  · simp only [FillCapabilityMap, hrange, List.foldl_cons, List.foldl_nil]
    exact hans
  · rw [hcount]
    have := List.length_filter_le Probe.accepted (FillCapabilityMap ioctl []).probes
    omega

end videocapturemodule

/-! ## Tools: termination without spurious wakeups -/

theorem wakeFirst_strong (c : Cond) (ts : List Pc) (j : Nat) (p : Pc) (h : ts[j]? = some p) :
    (wakeFirst c ts)[j]? = some p
      ∨ ((wakeFirst c ts)[j]? = some p.woken ∧ p.sleepsOn = some c) := by
  induction ts generalizing j with
  | nil => simp at h
  | cons q qs ih =>
    simp only [wakeFirst]
    split
    · rename_i hq
      cases j with
      | zero => simp at h; subst h; right; exact ⟨by simp, hq⟩
      | succ k => left; simpa using h
    · cases j with
      | zero => left; simpa using h
      | succ k => simpa using ih k (by simpa using h)

theorem signal_strong (w : Option Cond) (k : Nat) (ts : List Pc) (j : Nat) (p : Pc)
    (h : ts[j]? = some p) :
    (signal w k ts)[j]? = some p
      ∨ ((signal w k ts)[j]? = some p.woken ∧ ∃ c, w = some c ∧ p.sleepsOn = some c) := by
  cases w with
  | none => left; simpa [signal] using h
  | some c =>
    simp only [signal, Wake]
    split
    · rename_i q hq
      split
      · rename_i hs
        by_cases hjk : k = j
        · subst hjk
          rw [hq] at h; cases h
          right; exact ⟨by simp [lt_of_getElem? hq], c, rfl, hs⟩
        · left; simp [hjk, h]
      · rcases wakeFirst_strong c ts j p h with h1 | ⟨h1, h2⟩
        · left; exact h1
        · right; exact ⟨h1, c, rfl, h2⟩
    · rcases wakeFirst_strong c ts j p h with h1 | ⟨h1, h2⟩
      · left; exact h1
      · right; exact ⟨h1, c, rfl, h2⟩

theorem rank_own {q : Pc} {i : Nat} {sock : UdpSocketLinux} {cs : Option Nat} {ch : Choice}
    {e : Effect} (h : stmt q i sock cs ch = some e) (hsp : ch.spurious = false) :
    rank e.sock e.pc < rank sock q := by
  have hfr := run_frame
  cases q <;> simp only [stmt] at h <;> (try split at h) <;> simp at h <;>
    (try subst h) <;> simp_all [rank, CleanUp_self] <;> (try split) <;> omega

theorem rank_mono {a b : UdpSocketLinux} (h : Le a b) (p : Pc) : rank b p ≤ rank a p := by
  obtain ⟨_, h2, h3⟩ := h
  cases p <;> simp only [rank] <;> (try split) <;> (try split) <;> simp_all

theorem rank_woken {sock : UdpSocketLinux} {p : Pc} {c : Cond} (hs : p.sleepsOn = some c)
    (hr : c = .readyForDeletionCond → sock.readyForDeletion = true)
    (hc : c = .closeBlockingCompletedCond → sock.closeBlockingCompleted = true) :
    rank sock p.woken ≤ rank sock p := by
  cases p <;> simp [Pc.sleepsOn] at hs <;> subst hs <;> simp_all [rank, Pc.woken]

theorem stmt_wake {q : Pc} {i : Nat} {sock : UdpSocketLinux} {cs : Option Nat} {ch : Choice}
    {e : Effect} (h : stmt q i sock cs ch = some e) (hg : Good sock q) :
    (e.wake = some .readyForDeletionCond → e.sock.readyForDeletion = true)
      ∧ (e.wake = some .closeBlockingCompletedCond → e.sock.closeBlockingCompleted = true) := by
  cases q <;> simp only [stmt] at h <;> (try split at h) <;> simp at h <;> subst h <;>
    simp_all [Good]

theorem sum_lt_of_pointwise (f g : Pc → Nat) :
    ∀ (l l' : List Pc) (i : Nat), l'.length = l.length →
      (∀ (j : Nat) (p p' : Pc), l[j]? = some p → l'[j]? = some p' → g p' ≤ f p) →
      (∃ p p' : Pc, l[i]? = some p ∧ l'[i]? = some p' ∧ g p' < f p) →
      (l'.map g).sum < (l.map f).sum := by
  intro l
  induction l with
  | nil =>
    intro l' i _ _ hi
    obtain ⟨p, _, hp, _⟩ := hi
    simp at hp
  | cons a as ih =>
    intro l' i hlen hle hi
    cases l' with
    | nil => simp at hlen
    | cons b bs =>
      simp only [List.map_cons, List.sum_cons]
      have hlen' : bs.length = as.length := by simpa using hlen
      have hab : g b ≤ f a := hle 0 a b (by simp) (by simp)
      have hrest : ∀ (j : Nat) (p p' : Pc), as[j]? = some p → bs[j]? = some p' → g p' ≤ f p := by
        intro j p p' h1 h2
        exact hle (j + 1) p p' (by simpa using h1) (by simpa using h2)
      cases i with
      | zero =>
        obtain ⟨p, p', hp, hp', hlt⟩ := hi
        simp at hp hp'
        subst hp hp'
        have : (bs.map g).sum ≤ (as.map f).sum := by
          clear ih hle hlen hab hlt
          induction as generalizing bs with
          | nil =>
            cases bs with
            | nil => simp
            | cons _ _ => simp at hlen'
          | cons a2 as2 ih2 =>
            cases bs with
            | nil => simp at hlen'
            | cons b2 bs2 =>
              simp only [List.map_cons, List.sum_cons]
              have h0 := hrest 0 a2 b2 (by simp) (by simp)
              have h1 := ih2 bs2 (by simpa using hlen')
                (fun j p p' h1 h2 => hrest (j + 1) p p' (by simpa using h1) (by simpa using h2))
              omega
        omega
      | succ k =>
        obtain ⟨p, p', hp, hp', hlt⟩ := hi
        have := ih bs k hlen' hrest ⟨p, p', by simpa using hp, by simpa using hp', hlt⟩
        omega

theorem step_measure {s s' : Sys} {ch : Choice} (hs : step s ch = some s') (hinv : Inv s)
    (hsp : ch.spurious = false) : s'.measure < s.measure := by
  obtain ⟨q, e, hq, he, hs'⟩ := step_eq hs
  have hlt := lt_of_getElem? hq
  have hle := stmt_Le he
  obtain ⟨hw1, hw2⟩ := stmt_wake he (hinv.2 _ _ hq)
  have hlen : s'.threads.length = s.threads.length := by rw [hs']; simp
  unfold Sys.measure
  apply sum_lt_of_pointwise (rank s.sock) (rank s'.sock) s.threads s'.threads ch.tid hlen
  · intro j p p' hp hp'
    by_cases hj : j = ch.tid
    · subst hj
      rw [hq] at hp; cases hp
      rw [hs'] at hp' ⊢
      simp [hlt] at hp'
      subst hp'
      exact Nat.le_of_lt (rank_own he hsp)
    · have hne : ¬ ch.tid = j := fun h => hj h.symm
      rw [hs'] at hp' ⊢
      simp only [List.getElem?_set_ne hne] at hp'
      rcases signal_strong e.wake ch.pick s.threads j p hp with h | ⟨h, c, hc, hsl⟩
      · rw [hp'] at h; cases h
        exact rank_mono hle p
      · rw [hp'] at h; cases h
        have h1 : rank e.sock p.woken ≤ rank e.sock p :=
          rank_woken hsl (fun hcc => hw1 (by rw [hc, hcc])) (fun hcc => hw2 (by rw [hc, hcc]))
        exact Nat.le_trans h1 (rank_mono hle p)
  · refine ⟨q, e.pc, hq, ?_, ?_⟩
    · rw [hs']; simp [hlt]
    · rw [hs']; exact rank_own he hsp

theorem moves_le_measure (sched : List Choice) :
    ∀ s : Sys, Inv s → (∀ ch ∈ sched, ch.spurious = false) →
      moves s sched + (exec s sched).measure ≤ s.measure := by
  induction sched with
  | nil => intro s _ _; simp [moves, exec]
  | cons ch rest ih =>
    intro s hinv hsp
    have hrest : ∀ c ∈ rest, c.spurious = false := fun c hc => hsp c (List.mem_cons_of_mem _ hc)
    simp only [moves, exec]
    cases hs : step s ch with
    | none => simpa using ih s hinv hrest
    | some s' =>
      have h1 := step_measure hs hinv (hsp ch (List.mem_cons_self _ _))
      have h2 := ih s' (step_Inv hs hinv) hrest
      simp only [Option.getD_some]
      omega
/-! ## Tools: one `CloseBlocking` and one `ReadyForDeletion` -/

theorem Wake_pair (c : Cond) (k : Nat) (pA pR : Pc) :
    Wake c k [pA, pR]
      = if pA.sleepsOn = some c then
          (if pR.sleepsOn = some c then (if k = 1 then [pA, pR.woken] else [pA.woken, pR])
           else [pA.woken, pR])
        else (if pR.sleepsOn = some c then [pA, pR.woken] else [pA, pR]) := by
  rcases k with _ | _ | k <;> by_cases hA : pA.sleepsOn = some c <;>
    by_cases hR : pR.sleepsOn = some c <;> simp [Wake, wakeFirst, hA, hR]

theorem closes_append (a b : List (Nat × Event)) : closes (a ++ b) = closes a + closes b := by
  simp [closes]

theorem A_step {n0 : Nat} {pA pR : Pc} {s : Sys} {ch : Choice} {e : Effect}
    (h : RendezvousAt n0 pA pR s) (he : stmt pA 0 s.sock s.cs ch = some e) :
    Rendezvous n0
      { sock := e.sock
        cs := e.cs
        threads := (signal e.wake ch.pick [pA, pR]).set 0 e.pc
        trace := s.trace ++ e.calls.map (fun c => (0, c)) } := by
  obtain ⟨hA, hR, hact, hcsA, hcsR, hcs, hready, hdone, hsl, hack, hsock, hcl⟩ := h
  cases pA <;> simp [Pc.inClose] at hA <;> simp only [stmt] at he <;>
    (try split at he) <;> simp at he <;> subst he
  case c228 =>
    cases pR <;> simp [Pc.inReady] at hR <;>
      refine ⟨_, _, by simp [signal, Wake_pair, Pc.sleepsOn, Pc.woken]; exact ⟨rfl, rfl⟩, ?_⟩ <;>
      simp_all [RendezvousAt, Pc.inCS, Pc.hasSet, Pc.hasStored, Pc.hasAcked, Pc.hasClosed, Pc.inClose,
        Pc.inReady, closes_append, closes]
  all_goals
    refine ⟨_, _, rfl, ?_⟩
    simp_all [RendezvousAt, Pc.inCS, Pc.hasSet, Pc.hasStored, Pc.hasAcked, Pc.hasClosed, Pc.inClose,
      closes_append, closes]

theorem R_step {n0 : Nat} {pA pR : Pc} {s : Sys} {ch : Choice} {e : Effect}
    (h : RendezvousAt n0 pA pR s) (he : stmt pR 1 s.sock s.cs ch = some e) :
    Rendezvous n0
      { sock := e.sock
        cs := e.cs
        threads := (signal e.wake ch.pick [pA, pR]).set 1 e.pc
        trace := s.trace ++ e.calls.map (fun c => (1, c)) } := by
  obtain ⟨hA, hR, hact, hcsA, hcsR, hcs, hready, hdone, hsl, hack, hsock, hcl⟩ := h
  cases pR <;> simp [Pc.inReady] at hR <;> simp only [stmt] at he <;>
    (try split at he) <;> simp at he <;> subst he
  case r243 =>
    cases pA <;> simp [Pc.inClose] at hA <;>
      refine ⟨_, _, by simp [signal, Wake_pair, Pc.sleepsOn, Pc.woken]; exact ⟨rfl, rfl⟩, ?_⟩ <;>
      simp_all [RendezvousAt, Pc.inCS, Pc.hasSet, Pc.hasStored, Pc.hasAcked, Pc.hasClosed, Pc.inClose,
        Pc.inReady, closes_append, closes]
  all_goals
    refine ⟨_, _, rfl, ?_⟩
    first
      | (simp_all [RendezvousAt, Pc.inCS, Pc.hasSet, Pc.hasStored, Pc.hasAcked, Pc.hasClosed,
          Pc.inClose, Pc.inReady, closes_append, closes]; done)
      | (cases pA <;>
          simp_all [RendezvousAt, Pc.inCS, Pc.hasSet, Pc.hasStored, Pc.hasAcked, Pc.hasClosed,
            Pc.inClose, Pc.inReady, closes_append, closes])

theorem step_Rendezvous {n0 : Nat} {s s' : Sys} {ch : Choice} (hs : step s ch = some s')
    (h : Rendezvous n0 s) : Rendezvous n0 s' := by
  obtain ⟨pA, pR, hth, hat⟩ := h
  obtain ⟨q, e, hq, he, hs'⟩ := step_eq hs
  rw [hth] at hq hs'
  subst hs'
  rcases htid : ch.tid with _ | _ | k
  · rw [htid] at hq he
    simp only [List.getElem?_cons_zero, Option.some.injEq] at hq
    subst hq
    exact A_step hat he
  · rw [htid] at hq he
    simp only [List.getElem?_cons_succ, List.getElem?_cons_zero, Option.some.injEq] at hq
    subst hq
    exact R_step hat he
  · rw [htid] at hq
    simp at hq

theorem exec_Rendezvous {n0 : Nat} (sched : List Choice) :
    ∀ s : Sys, Rendezvous n0 s → Rendezvous n0 (exec s sched) := by
  induction sched with
  | nil => intro s h; exact h
  | cons ch rest ih =>
    intro s h
    simp only [exec]
    cases hs : step s ch with
    | none => simpa using ih s h
    | some s' => simpa using ih s' (step_Rendezvous hs h)

theorem Rendezvous_stuck {n0 : Nat} {s : Sys} (h : Rendezvous n0 s)
    (hstuck : ∀ ch : Choice, ch.spurious = false → step s ch = none) :
    s.threads = [.c230, .r249] := by
  obtain ⟨pA, pR, hth, hA, hR, hact, hcsA, hcsR, hcs, hready, hdone, hsl, hack, hsock, hcl⟩ := h
  have h0 := hstuck (move 0 true) rfl
  have h1 := hstuck (move 1 true) rfl
  rw [hth]
  simp only [step, move, hth, List.getElem?_cons_zero, List.getElem?_cons_succ] at h0 h1
  cases pA <;> simp [Pc.inClose] at hA <;> cases pR <;> simp [Pc.inReady] at hR <;>
    simp_all [stmt, Pc.inCS, Pc.hasSet, Pc.hasAcked]

theorem Rendezvous_done {n0 : Nat} {s : Sys} (h : Rendezvous n0 s)
    (hth : s.threads = [.c230, .r249]) :
    s.cs = none ∧ s.sock.socket = INVALID_SOCKET ∧ s.sock.readyForDeletion = true
      ∧ s.sock.closeBlockingCompleted = true ∧ closes s.trace = n0 + 1 := by
  obtain ⟨pA, pR, hth', hA, hR, hact, hcsA, hcsR, hcs, hready, hdone, hsl, hack, hsock, hcl⟩ := h
  rw [hth] at hth'
  simp only [List.cons.injEq, and_true] at hth'
  obtain ⟨h1, h2⟩ := hth'
  subst h1 h2
  simp_all [Pc.inCS, Pc.hasSet, Pc.hasStored, Pc.hasAcked, Pc.hasClosed]

theorem exec_stuck {s : Sys} (hstuck : ∀ ch : Choice, ch.spurious = false → step s ch = none)
    (later : List Choice) (hsp : ∀ ch ∈ later, ch.spurious = false) : exec s later = s := by
  induction later with
  | nil => rfl
  | cons ch rest ih =>
    simp only [exec, hstuck ch (hsp ch (List.mem_cons_self _ _)), Option.getD_none]
    exact ih (fun c hc => hsp c (List.mem_cons_of_mem _ hc))

theorem step_none_of_asleep {s : Sys} (hth : s.threads = [.c230, .c225s, .r249]) (ch : Choice)
    (hsp : ch.spurious = false) : step s ch = none := by
  rcases htid : ch.tid with _ | _ | _ | k <;> simp [step, stmt, hth, htid, hsp]

/-! ## The claims, continued: double close -/

set_option maxRecDepth 8000 in
/-- C13, as stated, fails: on descriptor 5 two `CloseBlocking` calls both
deregister and fall asleep on `_readyForDeletionCond`; the single
`ReadyForDeletion` call closes the handle and signals once, which wakes the
first; the first `CloseBlocking` and `ReadyForDeletion` return, and the second
`CloseBlocking` stays asleep in `SleepCS` along every continuation in which
no sleeper wakes without a signal. -/
theorem double_CloseBlocking_one_stays_asleep :
    (exec (Sys.init (construct 7 false (.fd 5)).self [.c214, .c214, .r234])
        (List.replicate 5 (move 0 true) ++ List.replicate 5 (move 1 true)
          ++ List.replicate 8 (move 2 true) ++ List.replicate 5 (move 0 true)
          ++ List.replicate 3 (move 2 true))).threads = [.c230, .c225s, .r249]
      ∧ ∀ later : List Choice, (∀ ch ∈ later, ch.spurious = false) →
          (exec
            (exec (Sys.init (construct 7 false (.fd 5)).self [.c214, .c214, .r234])
              (List.replicate 5 (move 0 true) ++ List.replicate 5 (move 1 true)
                ++ List.replicate 8 (move 2 true) ++ List.replicate 5 (move 0 true)
                ++ List.replicate 3 (move 2 true)))
            later).threads = [.c230, .c225s, .r249] := by
  have hth : (exec (Sys.init (construct 7 false (.fd 5)).self [.c214, .c214, .r234])
        (List.replicate 5 (move 0 true) ++ List.replicate 5 (move 1 true)
          ++ List.replicate 8 (move 2 true) ++ List.replicate 5 (move 0 true)
          ++ List.replicate 3 (move 2 true))).threads = [.c230, .c225s, .r249] := by
    decide
  refine ⟨hth, ?_⟩
  intro later hsp
  rw [exec_stuck (fun ch h => step_none_of_asleep hth ch h) later hsp]
  exact hth

/-- C13, amended: one `CloseBlocking` call that has passed `CleanUp` (thread 0
at line 223, holding the critical section, `_closeBlockingActive` set) and
one `ReadyForDeletion` call (thread 1) that has not started. Along every
schedule: a state in which no thread can move, short of a wakeup without a
signal, is one in which both calls have returned; when both have returned the
critical section is free, the handle is `INVALID_SOCKET`, both
`_readyForDeletion` and `_closeBlockingCompleted` are set and exactly one
`close` call has been added to the trace; and a schedule without such wakeups
moves the two threads at most 21 times. -/
theorem single_CloseBlocking_rendezvous (s0 : Sys) (sched : List Choice)
    (hth : s0.threads = [.c223, .r234]) (hcs : s0.cs = some 0)
    (hact : s0.sock.closeBlockingActive = true)
    (hready : s0.sock.readyForDeletion = false)
    (hdone : s0.sock.closeBlockingCompleted = false) :
    ((∀ ch : Choice, ch.spurious = false → step (exec s0 sched) ch = none) →
        (exec s0 sched).threads = [.c230, .r249])
      ∧ ((exec s0 sched).threads = [.c230, .r249] →
          (exec s0 sched).cs = none
            ∧ (exec s0 sched).sock.socket = INVALID_SOCKET
            ∧ (exec s0 sched).sock.readyForDeletion = true
            ∧ (exec s0 sched).sock.closeBlockingCompleted = true
            ∧ closes (exec s0 sched).trace = closes s0.trace + 1)
      ∧ ((∀ ch ∈ sched, ch.spurious = false) → moves s0 sched ≤ 21) := by
  have h0 : Rendezvous (closes s0.trace) s0 := by
    refine ⟨_, _, hth, ?_⟩
    simp [RendezvousAt, Pc.inClose, Pc.inReady, Pc.inCS, Pc.hasSet, Pc.hasStored, Pc.hasAcked,
      Pc.hasClosed, hcs, hact, hready, hdone]
  have hr := exec_Rendezvous sched s0 h0
  refine ⟨Rendezvous_stuck hr, Rendezvous_done hr, ?_⟩
  intro hsp
  have hinv : Inv s0 := by
    refine ⟨by simp [hready], ?_⟩
    intro i p hp
    rw [hth] at hp
    rcases i with _ | _ | k
    · simp at hp; subst hp; simp [Good]
    · simp at hp; subst hp; simp [Good]
    · simp at hp
  have hm := moves_le_measure sched s0 hinv hsp
  have h21 : s0.measure = 21 := by
    simp [Sys.measure, hth, rank, hready]
  omega

set_option maxRecDepth 8000 in
/-- C13, amended, at a concrete run: descriptor 5; after the three statements
that take `CloseBlocking` past `CleanUp`, the two calls run to their returns
in 18 moves. -/
theorem single_CloseBlocking_rendezvous_witness :
    (exec
        (exec (Sys.init (construct 7 false (.fd 5)).self [.c214, .r234])
          (List.replicate 3 (move 0 true)))
        (List.replicate 2 (move 0 true) ++ List.replicate 8 (move 1 true)
          ++ List.replicate 5 (move 0 true) ++ List.replicate 3 (move 1 true))).threads
        = [.c230, .r249]
      ∧ closes
          (exec
            (exec (Sys.init (construct 7 false (.fd 5)).self [.c214, .r234])
              (List.replicate 3 (move 0 true)))
            (List.replicate 2 (move 0 true) ++ List.replicate 8 (move 1 true)
              ++ List.replicate 5 (move 0 true) ++ List.replicate 3 (move 1 true))).trace
          = closes
              (exec (Sys.init (construct 7 false (.fd 5)).self [.c214, .r234])
                (List.replicate 3 (move 0 true))).trace + 1 :=
  ⟨by decide,
    ((single_CloseBlocking_rendezvous
      (exec (Sys.init (construct 7 false (.fd 5)).self [.c214, .r234])
        (List.replicate 3 (move 0 true)))
      (List.replicate 2 (move 0 true) ++ List.replicate 8 (move 1 true)
        ++ List.replicate 5 (move 0 true) ++ List.replicate 3 (move 1 true))
      (by decide) (by decide) (by decide) (by decide) (by decide)).2.1 (by decide)).2.2.2.2⟩

end webrtc
